import Mathlib

/-!
Verification of the step-detection pipeline of `pyoti/evaluate/step_finder.py`
(FBNL filter, step locator, plateau analyser, step pruner, quality scorer).

Python floats are modelled by `EF`: an exact rational payload extended with a
NaN element and signed infinities, with IEEE-754-like propagation rules
(round-off is idealised away; the negative zero of IEEE is identified with 0).
Square roots do not stay inside ℚ, so every definition that takes a square
root is parametrised by a payload function `sq : ℚ → ℚ` standing for the
(positive branch of the) square root; no theorem below depends on the values
of `sq` beyond the NaN/∞/0 bookkeeping that `EF.sqrtE` performs itself.

Components of the repository that `step_finder.py` imports from sibling
modules not present here (`helpers.moving_mean`, `signal.get_contiguous_segments`,
`signal.idx_to_idx_segments`, and the cython kernels `_iterative_variance`,
`_delete_close_center`, `_calculate_plateau_heights`) are modelled from the
spec; each such definition carries a doc comment starting with
`Modelled from the spec:`.
-/

/-- A Python/numpy double, idealised: exact rational, NaN, or ±∞.
`inf true` is +∞, `inf false` is −∞. -/
inductive EF where
  | nan : EF
  | inf : Bool → EF
  | num : ℚ → EF
deriving DecidableEq, Repr

namespace EF

/-- IEEE negation (NaN propagates, infinities flip sign). -/
def neg : EF → EF
  | nan => nan
  | inf s => inf (!s)
  | num q => num (-q)

/-- IEEE addition: NaN propagates, ∞ + (−∞) = NaN. -/
def add : EF → EF → EF
  | nan, _ => nan
  | _, nan => nan
  | inf s, inf t => if s = t then inf s else nan
  | inf s, num _ => inf s
  | num _, inf t => inf t
  | num a, num b => num (a + b)

/-- IEEE subtraction. -/
def sub (x y : EF) : EF := add x (neg y)

/-- IEEE multiplication: NaN propagates, 0 · ∞ = NaN. -/
def mul : EF → EF → EF
  | nan, _ => nan
  | _, nan => nan
  | inf s, inf t => inf (s = t)
  | inf s, num b => if b = 0 then nan else inf (s = decide (0 < b))
  | num a, inf t => if a = 0 then nan else inf (t = decide (0 < a))
  | num a, num b => num (a * b)

/-- IEEE division: x/0 is ±∞ for x ≠ 0 (0 is treated as +0), 0/0 = NaN,
∞/∞ = NaN, finite/∞ = 0. -/
def div : EF → EF → EF
  | nan, _ => nan
  | _, nan => nan
  | inf _, inf _ => nan
  | inf s, num b => if b = 0 then inf s else inf (s = decide (0 < b))
  | num _, inf _ => num 0
  | num a, num b =>
      if b = 0 then (if a = 0 then nan else inf (decide (0 < a)))
      else num (a / b)

/-- IEEE absolute value. -/
def abs : EF → EF
  | nan => nan
  | inf _ => inf true
  | num q => num |q|

/-- IEEE strict comparison: any comparison with NaN is false. -/
def lt : EF → EF → Bool
  | nan, _ => false
  | _, nan => false
  | inf s, inf t => !s && t
  | inf s, num _ => !s
  | num _, inf t => t
  | num a, num b => decide (a < b)

/-- Natural power (pointwise on the payload; (±∞)^p keeps IEEE signs,
x^0 = 1 as in numpy). -/
def powN : EF → ℕ → EF
  | _, 0 => num 1
  | nan, _ + 1 => nan
  | inf s, p + 1 => inf (s || (p + 1) % 2 = 0)
  | num a, p + 1 => num (a ^ (p + 1))

/-- `x ** (-p)` for a natural exponent `p`, as numpy computes it
(`1/0 = inf`). -/
def powNeg (x : EF) (p : ℕ) : EF := div (num 1) (powN x p)

/-- IEEE square root with payload `sq` for the positive branch:
NaN for negative arguments and −∞, exact 0 at 0. -/
def sqrtE (sq : ℚ → ℚ) : EF → EF
  | nan => nan
  | inf s => if s then inf true else nan
  | num q => if q < 0 then nan else if q = 0 then num 0 else num (sq q)

/-- Left-fold sum as `np.sum` (exact arithmetic makes the summation order
irrelevant except for NaN/∞ bookkeeping, which folds identically). -/
def sum (l : List EF) : EF := l.foldl add (num 0)

/-- `np.mean`: the empty mean is 0/0 = NaN, as numpy returns. -/
def mean (l : List EF) : EF := div (sum l) (num l.length)

/-- `np.isnan`. -/
def isNanB : EF → Bool
  | nan => true
  | _ => false

/-- `np.nanmean`: mean of the non-NaN entries, NaN if there are none. -/
def nanmean (l : List EF) : EF :=
  let k := l.filter (fun x => !isNanB x)
  if k.isEmpty then nan else mean k

/-- Replace NaN by 0 (`a[np.isnan(a)] = 0.0`). -/
def nanZero : EF → EF
  | nan => num 0
  | x => x

/-- The rational payload, with 0 for NaN/∞ (used only where a side condition
guarantees finiteness). -/
def toQ : EF → ℚ
  | num q => q
  | _ => 0

end EF

/-- `[f 0, f 1, …, f (n-1)]` — the shape of a freshly built numpy array. -/
def listOfFn {α : Type} (n : ℕ) (f : ℕ → α) : List α := (List.range n).map f

/-- Python slice `l[a:b]` for 0 ≤ a (the only case the sources reach;
`b ≤ a` gives the empty slice as in Python). -/
def sliceZ {α : Type} (l : List α) (a b : ℤ) : List α :=
  ((l.drop a.toNat).take (b - a).toNat)

/-- Python `l[-n:]`: the last `n` entries. -/
def lastN {α : Type} (l : List α) (n : ℕ) : List α := l.drop (l.length - n)

/-- Exact sum of rationals. -/
def sumQ (l : List ℚ) : ℚ := l.foldl (· + ·) 0

/-- Exact mean of rationals (0 on the empty list; callers guard emptiness). -/
def meanQ (l : List ℚ) : ℚ := sumQ l / l.length

/-- Insertion sort, ascending (model of `np.sort` on rationals). -/
def sortQ : List ℚ → List ℚ
  | [] => []
  | x :: xs => insertQ x (sortQ xs)
where
  insertQ (x : ℚ) : List ℚ → List ℚ
    | [] => [x]
    | y :: ys => if x ≤ y then x :: y :: ys else y :: insertQ x ys

/-- `np.median` (linear interpolation): middle order statistic, or the mean
of the two middle ones for even length. -/
def medianQ (l : List ℚ) : ℚ :=
  let s := sortQ l
  let n := s.length
  if n % 2 = 1 then s.getD (n / 2) 0
  else (s.getD (n / 2 - 1) 0 + s.getD (n / 2) 0) / 2

/-- Population variance (`np.std` squared, ddof = 0). -/
def popVarQ (l : List ℚ) : ℚ :=
  meanQ (l.map (fun x => (x - meanQ l) ^ 2))

/-- `np.round` rounds half to even, then `int()` keeps the integer value. -/
def roundHE (q : ℚ) : ℤ :=
  let f := ⌊q⌋
  let r := q - f
  if r < 1 / 2 then f
  else if 1 / 2 < r then f + 1
  else if f % 2 = 0 then f else f + 1

/-- Clamp an integer into `[lo, hi]` as the two `max`/`min` lines of the
center-of-mass resolution do. -/
def clampZ (lo hi x : ℤ) : ℤ := min hi (max lo x)

example : roundHE (1 / 2) = 0 := by norm_num [roundHE]
example : roundHE (3 / 2) = 2 := by norm_num [roundHE]
example : roundHE (-1 / 2) = 0 := by norm_num [roundHE]
example : roundHE (7 / 5) = 1 := by norm_num [roundHE]
example : medianQ [0, 10] = 5 := by norm_num [medianQ, sortQ, sortQ.insertQ]
example : EF.div (EF.num 3) (EF.num 0) = EF.inf true := by norm_num [EF.div]
example : EF.sum [EF.num 1, EF.nan, EF.num 2] = EF.nan := by
  norm_num [EF.sum, EF.add, List.foldl]

/-! ## FBNL filter (`_filter_fbnl`, `_filter_fbnl_capped`, `filter_fbnl`) -/

/-- Modelled from the spec: `helpers.moving_mean(data, window)` —
`x[j]` is the mean of `data[j:j+window]`, aligned so that
`xf[i] = x[i-window]` is the mean over `[i-window, i)` and
`xb[i] = x[i+1]` the mean over `[i+1, i+window]`. -/
def movingMean (data : List ℚ) (w : ℕ) : List ℚ :=
  listOfFn (data.length + 1 - w) (fun j => meanQ ((data.drop j).take w))

/-- `xf`: forward estimate; NaN outside `[window, N-window)`
(lines 369, 376 of `step_finder.py`). -/
def xfArr (data : List ℚ) (w : ℕ) : List EF :=
  let N := data.length
  let x := movingMean data w
  listOfFn N (fun i =>
    if w ≤ i ∧ i + w < N then EF.num (x.getD (i - w) 0) else EF.nan)

/-- `xb`: backward estimate; NaN outside `[window, N-window)`
(lines 370, 375). -/
def xbArr (data : List ℚ) (w : ℕ) : List EF :=
  let N := data.length
  let x := movingMean data w
  listOfFn N (fun i =>
    if w ≤ i ∧ i + w < N then EF.num (x.getD (i + 1) 0) else EF.nan)

/-- Raw (undivided) forward residual sums: `sf[i]` is the sum of squared
residuals of `data` against `xf` over the window of length `window_var`
ending at `i`, for `i ∈ [loss, N-loss)` (line 380 initialises `sf[loss]`,
the iterative cython update fills `(loss, N-loss)`; modelled from the spec
by its closed form, since the add-one/remove-one update is exact here). -/
def sfRaw (data : List ℚ) (w wv : ℕ) : List EF :=
  let N := data.length
  let xf := xfArr data w
  let loss := w + wv - 1
  listOfFn N (fun i =>
    if i = loss ∨ (loss < i ∧ i + loss < N) then
      EF.sum ((List.range wv).map (fun k =>
        let j := i + 1 + k - wv
        EF.powN (EF.sub (EF.num (data.getD j 0)) (xf.getD j EF.nan)) 2))
    else EF.nan)

/-- Raw backward residual sums over the window of length `window_var`
starting at `i` (line 381 and the cython update; closed form as above). -/
def sbRaw (data : List ℚ) (w wv : ℕ) : List EF :=
  let N := data.length
  let xb := xbArr data w
  let loss := w + wv - 1
  listOfFn N (fun i =>
    if i = loss ∨ (loss < i ∧ i + loss < N) then
      EF.sum ((List.range wv).map (fun k =>
        let j := i + k
        EF.powN (EF.sub (EF.num (data.getD j 0)) (xb.getD j EF.nan)) 2))
    else EF.nan)

/-- `sf = sf / window_var`, `sb = sb / window_var` (lines 391-392). -/
def sfArr (data : List ℚ) (w wv : ℕ) : List EF :=
  (sfRaw data w wv).map (fun v => EF.div v (EF.num wv))

def sbArr (data : List ℚ) (w wv : ℕ) : List EF :=
  (sbRaw data w wv).map (fun v => EF.div v (EF.num wv))

/-- Weights `f = sf**(-p)`, `b = sb**(-p)`, normalised by `total = f + b`
(lines 395-401). The nonlinearity exponent is modelled for natural `p`
(its default in the sources is 1). -/
def fArr (data : List ℚ) (w wv p : ℕ) : List EF :=
  let f0 := (sfArr data w wv).map (fun v => EF.powNeg v p)
  let b0 := (sbArr data w wv).map (fun v => EF.powNeg v p)
  let total := List.zipWith EF.add f0 b0
  List.zipWith EF.div f0 total

def bArr (data : List ℚ) (w wv p : ℕ) : List EF :=
  let f0 := (sfArr data w wv).map (fun v => EF.powNeg v p)
  let b0 := (sbArr data w wv).map (fun v => EF.powNeg v p)
  let total := List.zipWith EF.add f0 b0
  List.zipWith EF.div b0 total

/-- The tuple returned by `_filter_fbnl` (minus `resolution`, which it
passes through unused). -/
structure FBNLCore where
  data : List ℚ
  dataFiltered : List EF
  sf : List EF
  sb : List EF
  f : List EF
  b : List EF
  xf : List EF
  xb : List EF
deriving DecidableEq, Repr

/-- Length of the Python slice `l[a:b]` of a length-`len` array, for
`0 ≤ a` (a negative `b` counts from the end, as in Python). -/
def pySliceLen (len : ℕ) (a b : ℤ) : ℤ :=
  let start := min a (len : ℤ)
  let stop := if b < 0 then max 0 ((len : ℤ) + b) else min b (len : ℤ)
  max 0 (stop - start)

/-- `_filter_fbnl` (lines 356-411).  Two numpy aborts are reachable, in
source order: the assignment `xf[window:N-window] = x[:N-2*window]`
(line 376) raises a broadcast ValueError whenever the right-hand side
keeps two or more samples while the left slice is shorter (a length-1
right-hand side still broadcasts), which with `len(x) = N+1-window`
happens exactly when `3*window + 1 ≤ 2*N < 4*window` (see
`broadcastOk_iff`); after it, `sf[loss] = ...` (line 380) raises an
IndexError when `loss ≥ N`.  The companion assignment
`xb[window:N-window] = x[window+1:]` (line 375) can never fail: both
sides have length `max(0, N-2*window)` for every `N`.  The cython
`_iterative_variance` and the remaining whole-array arithmetic raise
nothing. -/
def filterFbnlCore (data : List ℚ) (w wv p : ℕ) : Except String FBNLCore :=
  if pySliceLen (movingMean data w).length 0 ((data.length : ℤ) - 2 * w)
        = pySliceLen data.length w ((data.length : ℤ) - w)
      ∨ pySliceLen (movingMean data w).length 0 ((data.length : ℤ) - 2 * w) = 1
  then
    if data.length ≤ w + wv - 1 then .error "IndexError"
    else
      let f := fArr data w wv p
      let b := bArr data w wv p
      let xf := xfArr data w
      let xb := xbArr data w
      .ok { data := data
            dataFiltered := List.zipWith EF.add (List.zipWith EF.mul f xf)
              (List.zipWith EF.mul b xb)
            sf := sfArr data w wv
            sb := sbArr data w wv
            f := f, b := b, xf := xf, xb := xb }
  else .error "ValueError"

/-- First `inspect_length + 1` points of the data (line 157:
`data[:int(inspect_length) + 1]`). -/
def capStartSeg (data : List ℚ) (inspect : ℕ) : List ℚ := data.take (inspect + 1)

/-- Last `inspect_length` points of the data (line 160:
`data[-int(inspect_length):]`). -/
def capStopSeg (data : List ℚ) (inspect : ℕ) : List ℚ := lastN data inspect

/-- Location parameter fitted for the start cap: the *median* of the first
`inspect_length + 1` samples (line 156-157). -/
def capLocStart (data : List ℚ) (inspect : ℕ) : ℚ := medianQ (capStartSeg data inspect)

/-- Location parameter fitted for the stop cap (lines 159-160). -/
def capLocStop (data : List ℚ) (inspect : ℕ) : ℚ := medianQ (capStopSeg data inspect)

/-- `cap_data(data, cap_length, inspect_length)` (lines 132-167): normal
draws at both ends.  The random source is a parameter `sampler loc scale n`
standing for `np.random.normal(loc, scale, n)`; the scale passed is the
population standard deviation, i.e. `sq` applied to the population
variance of the inspected segment. -/
def capData (sampler : ℚ → ℚ → ℕ → List ℚ) (sq : ℚ → ℚ)
    (data : List ℚ) (capLen inspect : ℕ) : List ℚ :=
  sampler (capLocStart data inspect) (sq (popVarQ (capStartSeg data inspect))) capLen
    ++ data
    ++ sampler (capLocStop data inspect) (sq (popVarQ (capStopSeg data inspect))) capLen

/-- Python `a[k:-k]` for `k ≥ 1`. -/
def trimEnds {α : Type} (l : List α) (k : ℕ) : List α :=
  (l.drop k).take (l.length - 2 * k)

/-- `_filter_fbnl_capped` (lines 334-353): extend by `loss` points at each
end (fitting over `ceil(window/2)` points), run the core filter, trim
`loss` points from each end of every array. -/
def filterFbnlCapped (sampler : ℚ → ℚ → ℕ → List ℚ) (sq : ℚ → ℚ)
    (data : List ℚ) (w wv p : ℕ) : Except String FBNLCore :=
  let loss := w + wv - 1
  let inspect := (w + 1) / 2
  let ext := capData sampler sq data loss inspect
  (filterFbnlCore ext w wv p).map (fun r =>
    { data := trimEnds r.data loss
      dataFiltered := trimEnds r.dataFiltered loss
      sf := trimEnds r.sf loss
      sb := trimEnds r.sb loss
      f := trimEnds r.f loss
      b := trimEnds r.b loss
      xf := trimEnds r.xf loss
      xb := trimEnds r.xb loss })

/-- Total order used for sorting float arrays (NaN sorts last as in numpy;
the callers below only sort NaN-free data). -/
def EF.leB : EF → EF → Bool
  | EF.nan, _ => false
  | _, EF.nan => true
  | EF.inf s, EF.inf t => !s || t
  | EF.inf s, EF.num _ => !s
  | EF.num _, EF.inf t => t
  | EF.num a, EF.num b => decide (a ≤ b)

def sortEF : List EF → List EF
  | [] => []
  | x :: xs => insertEF x (sortEF xs)
where
  insertEF (x : EF) : List EF → List EF
    | [] => [x]
    | y :: ys => if EF.leB x y then x :: y :: ys else y :: insertEF x ys

/-- `np.percentile(s, pct, interpolation='midpoint')` on a non-empty,
NaN-free array: the midpoint of the two order statistics either side of
the fractional rank `(n-1)*pct/100`. -/
def efPercentileMid (l : List EF) (pct : ℚ) : EF :=
  let s := sortEF l
  let h : ℚ := (s.length - 1 : ℤ) * pct / 100
  EF.div (EF.add (s.getD ⌊h⌋.toNat EF.nan) (s.getD ⌈h⌉.toNat EF.nan)) (EF.num 2)

/-- `np.median` (linear interpolation) on floats. -/
def efMedianLinear (l : List EF) : EF :=
  let s := sortEF l
  let n := s.length
  if n % 2 = 1 then s.getD (n / 2) EF.nan
  else EF.div (EF.add (s.getD (n / 2 - 1) EF.nan) (s.getD (n / 2) EF.nan)) (EF.num 2)

/-- `iqr_outlier_threshold` (lines 46-73): half-width `(upper-lower)/2`
where `upper`/`lower` are `iqr_factor` interquartile ranges beyond the
quartiles.  `np.nanpercentile` raises an IndexError when no non-NaN value
exists. -/
def iqrOutlierThreshold (signal : List EF) (iqrFactor : ℚ) : Except String EF :=
  let s := signal.filter (fun x => !EF.isNanB x)
  if s.isEmpty then .error "IndexError"
  else
    let q1 := efPercentileMid s 25
    let q3 := efPercentileMid s 75
    let iqr := EF.sub q3 q1
    let up := EF.add q3 (EF.mul iqr (EF.num iqrFactor))
    let lo := EF.sub q1 (EF.mul iqr (EF.num iqrFactor))
    .ok (EF.div (EF.sub up lo) (EF.num 2))

/-- `np.std` (population, ddof 0); NaN on the empty array. -/
def efStd (sq : ℚ → ℚ) (l : List EF) : EF :=
  if l.isEmpty then EF.nan
  else EF.sqrtE sq (EF.mean (l.map (fun x => EF.powN (EF.sub x (EF.mean l)) 2)))

/-- The `FBNLFilterResult` namedtuple (lines 23-26), minus `resolution`
(passed through unused by the filter). -/
structure FBNLFilterResult where
  data : List ℚ
  window : ℕ
  windowVar : ℕ
  p : ℕ
  dataFiltered : List EF
  sf : List EF
  sb : List EF
  f : List EF
  b : List EF
  xf : List EF
  xb : List EF
  stepMass : List EF
  stepSize : List EF
  noise : List EF
  noiseMean : EF
  aSNR : EF
  mSNR : EF
  STD : EF
  outls : List Bool
deriving DecidableEq, Repr

/-- `filter_fbnl` (lines 243-331).  `capFlag` is the `cap_data` keyword;
`sampler` models `np.random.normal`; `sq` is the square-root payload.  The
error cases are the only aborts the source can produce (the core filter's
broadcast ValueError and `sf[loss]` IndexError, and `np.nanpercentile`'s
IndexError on an all-NaN step mass; no `InsufficientDataError` exists
anywhere in the repository). -/
def filterFbnl (capFlag : Bool) (sampler : ℚ → ℚ → ℕ → List ℚ) (sq : ℚ → ℚ)
    (data : List ℚ) (w wv p : ℕ) : Except String FBNLFilterResult := do
  let core ← if capFlag then filterFbnlCapped sampler sq data w wv p
             else filterFbnlCore data w wv p
  let stepSize := List.zipWith EF.sub core.xb core.xf
  let noise := (List.zipWith EF.add (List.zipWith EF.mul core.f core.sf)
    (List.zipWith EF.mul core.b core.sb)).map (EF.sqrtE sq)
  let stepMass := List.zipWith EF.div stepSize noise
  let noiseMean := EF.nanmean noise
  let sm := stepMass.filter (fun x => !EF.isNanB x)
  let thr ← iqrOutlierThreshold sm 3
  let outls0 := sm.map (fun v => EF.lt thr (EF.abs v))
  let smOutls := ((sm.zip outls0).filter (fun x => x.2)).map (fun x => x.1)
  let smNoise := ((sm.zip outls0).filter (fun x => !x.2)).map (fun x => x.1)
  let STD := efStd sq smNoise
  let snr := (smOutls.map (fun v => EF.div v STD)).map EF.abs
  let aSNR := if 0 < smOutls.length then EF.mean snr else EF.nan
  let mSNR := if 0 < smOutls.length then efMedianLinear snr else EF.nan
  let smZ := stepMass.map EF.nanZero
  let outls := smZ.map (fun v => EF.lt thr (EF.abs v))
  pure { data := core.data, window := w, windowVar := wv, p := p
         dataFiltered := core.dataFiltered, sf := core.sf, sb := core.sb
         f := core.f, b := core.b, xf := core.xf, xb := core.xb
         stepMass := stepMass, stepSize := stepSize, noise := noise
         noiseMean := noiseMean, aSNR := aSNR, mSNR := mSNR, STD := STD
         outls := outls }

/-! ## Helper lemmas -/

theorem rangeTwo : List.range 2 = [0, 1] := rfl

theorem rangeThree : List.range 3 = [0, 1, 2] := rfl

theorem rangeFour : List.range 4 = [0, 1, 2, 3] := rfl

theorem rangeFive : List.range 5 = [0, 1, 2, 3, 4] := rfl

theorem rangeSix : List.range 6 = [0, 1, 2, 3, 4, 5] := rfl

theorem rangeSeven : List.range 7 = [0, 1, 2, 3, 4, 5, 6] := rfl

theorem rangeEight : List.range 8 = [0, 1, 2, 3, 4, 5, 6, 7] := rfl

theorem rangeTwelve : List.range 12 = [0, 1, 2, 3, 4, 5, 6, 7, 8, 9, 10, 11] := rfl

theorem length_listOfFn {α : Type} (n : ℕ) (f : ℕ → α) :
    (listOfFn n f).length = n := by
  simp [listOfFn]

theorem length_movingMean (data : List ℚ) (w : ℕ) :
    (movingMean data w).length = data.length + 1 - w := by
  simp [movingMean, length_listOfFn]

/-- The broadcast at line 376 succeeds exactly outside the band
`3*window + 1 ≤ 2*N < 4*window`. -/
theorem broadcastOk_iff (n w : ℕ) :
    (pySliceLen (n + 1 - w) 0 ((n : ℤ) - 2 * w) = pySliceLen n w ((n : ℤ) - w)
        ∨ pySliceLen (n + 1 - w) 0 ((n : ℤ) - 2 * w) = 1)
      ↔ ¬ (3 * w + 1 ≤ 2 * n ∧ n < 2 * w) := by
  simp only [pySliceLen]
  split_ifs <;> omega

theorem getD_listOfFn {α : Type} (n : ℕ) (f : ℕ → α) (i : ℕ) (d : α) (h : i < n) :
    (listOfFn n f).getD i d = f i := by
  rw [List.getD_eq_getElem _ d (by simpa [length_listOfFn] using h)]
  simp [listOfFn]

theorem getD_map_of_lt {α β : Type} (g : α → β) (l : List α) (i : ℕ) (d : α) (d' : β)
    (h : i < l.length) : (l.map g).getD i d' = g (l.getD i d) := by
  rw [List.getD_eq_getElem _ d' (by simpa using h), List.getD_eq_getElem _ d h,
    List.getElem_map]

theorem getD_zipWith_of_lt {α β γ : Type} (f : α → β → γ) (l1 : List α) (l2 : List β)
    (i : ℕ) (d1 : α) (d2 : β) (d3 : γ) (h1 : i < l1.length) (h2 : i < l2.length) :
    (List.zipWith f l1 l2).getD i d3 = f (l1.getD i d1) (l2.getD i d2) := by
  rw [List.getD_eq_getElem _ d3 (by simp [List.length_zipWith]; omega),
    List.getD_eq_getElem _ d1 h1, List.getD_eq_getElem _ d2 h2,
    List.getElem_zipWith]

/-! ## Concrete inputs used by the claim instances -/

/-- The identity as square-root payload (its values are irrelevant to every
statement below, see the header note). -/
def sqId : ℚ → ℚ := fun q => q

/-- A deterministic stand-in for `np.random.normal(loc, scale, n)`:
`n` copies of `loc` (any sampler of the correct length works in the
theorems below). -/
def samplerConst : ℚ → ℚ → ℕ → List ℚ := fun a _ n => List.replicate n a

/-- A 7-point signal: shorter than `2*(window+window_var) = 8` for
`window = window_var = 2`. -/
def dC1 : List ℚ := [0, 1, 0, 1, 0, 1, 0]

theorem movingMean_dC1 : movingMean ([0, 1, 0, 1, 0, 1, 0] : List ℚ) 2 = [1/2, 1/2, 1/2, 1/2, 1/2, 1/2] := by
  norm_num [movingMean, dC1, listOfFn, meanQ, sumQ, rangeSix]

theorem xfArr_dC1 : xfArr ([0, 1, 0, 1, 0, 1, 0] : List ℚ) 2 =
    [EF.nan, EF.nan, EF.num (1/2), EF.num (1/2), EF.num (1/2), EF.nan, EF.nan] := by
  norm_num [xfArr, movingMean_dC1, dC1, listOfFn, rangeSeven]

theorem xbArr_dC1 : xbArr ([0, 1, 0, 1, 0, 1, 0] : List ℚ) 2 =
    [EF.nan, EF.nan, EF.num (1/2), EF.num (1/2), EF.num (1/2), EF.nan, EF.nan] := by
  norm_num [xbArr, movingMean_dC1, dC1, listOfFn, rangeSeven]

theorem sfArr_dC1 : sfArr ([0, 1, 0, 1, 0, 1, 0] : List ℚ) 2 2 =
    [EF.nan, EF.nan, EF.nan, EF.num (1/4), EF.nan, EF.nan, EF.nan] := by
  norm_num [sfArr, sfRaw, xfArr_dC1, dC1, listOfFn, rangeSeven, rangeTwo,
    EF.sum, EF.add, EF.sub, EF.neg, EF.powN, EF.div]

theorem sbArr_dC1 : sbArr ([0, 1, 0, 1, 0, 1, 0] : List ℚ) 2 2 =
    [EF.nan, EF.nan, EF.nan, EF.num (1/4), EF.nan, EF.nan, EF.nan] := by
  norm_num [sbArr, sbRaw, xbArr_dC1, dC1, listOfFn, rangeSeven, rangeTwo,
    EF.sum, EF.add, EF.sub, EF.neg, EF.powN, EF.div]

theorem fArr_dC1 : fArr ([0, 1, 0, 1, 0, 1, 0] : List ℚ) 2 2 1 =
    [EF.nan, EF.nan, EF.nan, EF.num (1/2), EF.nan, EF.nan, EF.nan] := by
  rw [fArr, sfArr_dC1, sbArr_dC1]
  norm_num [EF.powNeg, EF.powN, EF.div, EF.add, List.zipWith]

theorem bArr_dC1 : bArr ([0, 1, 0, 1, 0, 1, 0] : List ℚ) 2 2 1 =
    [EF.nan, EF.nan, EF.nan, EF.num (1/2), EF.nan, EF.nan, EF.nan] := by
  rw [bArr, sfArr_dC1, sbArr_dC1]
  norm_num [EF.powNeg, EF.powN, EF.div, EF.add, List.zipWith]

theorem filterFbnlCore_dC1 : filterFbnlCore ([0, 1, 0, 1, 0, 1, 0] : List ℚ) 2 2 1 = Except.ok
    { data := [0, 1, 0, 1, 0, 1, 0]
      dataFiltered := [EF.nan, EF.nan, EF.nan, EF.num (1/2), EF.nan, EF.nan, EF.nan]
      sf := [EF.nan, EF.nan, EF.nan, EF.num (1/4), EF.nan, EF.nan, EF.nan]
      sb := [EF.nan, EF.nan, EF.nan, EF.num (1/4), EF.nan, EF.nan, EF.nan]
      f := [EF.nan, EF.nan, EF.nan, EF.num (1/2), EF.nan, EF.nan, EF.nan]
      b := [EF.nan, EF.nan, EF.nan, EF.num (1/2), EF.nan, EF.nan, EF.nan]
      xf := [EF.nan, EF.nan, EF.num (1/2), EF.num (1/2), EF.num (1/2), EF.nan, EF.nan]
      xb := [EF.nan, EF.nan, EF.num (1/2), EF.num (1/2), EF.num (1/2), EF.nan, EF.nan] } := by
  rw [filterFbnlCore, length_movingMean]
  rw [if_pos ((broadcastOk_iff ([0, 1, 0, 1, 0, 1, 0] : List ℚ).length 2).mpr
    (by norm_num))]
  rw [if_neg (by norm_num)]
  rw [fArr_dC1, bArr_dC1, xfArr_dC1, xbArr_dC1, sfArr_dC1, sbArr_dC1]
  norm_num [EF.mul, EF.add, List.zipWith]

theorem filterFbnl_dC1 : filterFbnl false samplerConst sqId dC1 2 2 1 = Except.ok
    { data := [0, 1, 0, 1, 0, 1, 0], window := 2, windowVar := 2, p := 1
      dataFiltered := [EF.nan, EF.nan, EF.nan, EF.num (1/2), EF.nan, EF.nan, EF.nan]
      sf := [EF.nan, EF.nan, EF.nan, EF.num (1/4), EF.nan, EF.nan, EF.nan]
      sb := [EF.nan, EF.nan, EF.nan, EF.num (1/4), EF.nan, EF.nan, EF.nan]
      f := [EF.nan, EF.nan, EF.nan, EF.num (1/2), EF.nan, EF.nan, EF.nan]
      b := [EF.nan, EF.nan, EF.nan, EF.num (1/2), EF.nan, EF.nan, EF.nan]
      xf := [EF.nan, EF.nan, EF.num (1/2), EF.num (1/2), EF.num (1/2), EF.nan, EF.nan]
      xb := [EF.nan, EF.nan, EF.num (1/2), EF.num (1/2), EF.num (1/2), EF.nan, EF.nan]
      stepMass := [EF.nan, EF.nan, EF.nan, EF.num 0, EF.nan, EF.nan, EF.nan]
      stepSize := [EF.nan, EF.nan, EF.num 0, EF.num 0, EF.num 0, EF.nan, EF.nan]
      noise := [EF.nan, EF.nan, EF.nan, EF.num (1/4), EF.nan, EF.nan, EF.nan]
      noiseMean := EF.num (1/4)
      aSNR := EF.nan, mSNR := EF.nan, STD := EF.num 0
      outls := [false, false, false, false, false, false, false] } := by
  rw [filterFbnl]
  rw [show dC1 = ([0, 1, 0, 1, 0, 1, 0] : List ℚ) from rfl]
  rw [if_neg (by norm_num)]
  rw [filterFbnlCore_dC1]
  norm_num [sqId,
    EF.mul, EF.add, EF.sub, EF.neg, EF.div, EF.sum, EF.mean, EF.nanmean, EF.sqrtE,
    EF.nanZero, EF.abs, EF.lt, EF.leB, EF.powN, EF.isNanB,
    iqrOutlierThreshold, efPercentileMid, sortEF, sortEF.insertEF, efStd,
    efMedianLinear, List.zipWith, List.filter, Except.bind, bind, Except.pure, pure]

/-! ## Array-length lemmas for the filter -/

theorem length_xfArr (data : List ℚ) (w : ℕ) : (xfArr data w).length = data.length := by
  simp [xfArr, length_listOfFn]

theorem length_xbArr (data : List ℚ) (w : ℕ) : (xbArr data w).length = data.length := by
  simp [xbArr, length_listOfFn]

theorem length_sfArr (data : List ℚ) (w wv : ℕ) :
    (sfArr data w wv).length = data.length := by
  simp [sfArr, sfRaw, length_listOfFn]

theorem length_sbArr (data : List ℚ) (w wv : ℕ) :
    (sbArr data w wv).length = data.length := by
  simp [sbArr, sbRaw, length_listOfFn]

theorem length_fArr (data : List ℚ) (w wv p : ℕ) :
    (fArr data w wv p).length = data.length := by
  simp [fArr, List.length_zipWith, length_sfArr, length_sbArr]

theorem length_bArr (data : List ℚ) (w wv p : ℕ) :
    (bArr data w wv p).length = data.length := by
  simp [bArr, List.length_zipWith, length_sfArr, length_sbArr]

theorem length_trimEnds {α : Type} (l : List α) (k : ℕ) :
    (trimEnds l k).length = l.length - 2 * k := by
  simp [trimEnds]
  omega

theorem filterFbnlCore_ok (data : List ℚ) (w wv p : ℕ)
    (h : ¬ data.length ≤ w + wv - 1)
    (hbc : ¬ (3 * w + 1 ≤ 2 * data.length ∧ data.length < 2 * w)) :
    filterFbnlCore data w wv p = Except.ok
      { data := data
        dataFiltered := List.zipWith EF.add
          (List.zipWith EF.mul (fArr data w wv p) (xfArr data w))
          (List.zipWith EF.mul (bArr data w wv p) (xbArr data w))
        sf := sfArr data w wv
        sb := sbArr data w wv
        f := fArr data w wv p, b := bArr data w wv p
        xf := xfArr data w, xb := xbArr data w } := by
  rw [filterFbnlCore, length_movingMean]
  rw [if_pos ((broadcastOk_iff data.length w).mpr hbc), if_neg h]

/-- The complete abort landscape of `_filter_fbnl`: below the usable length
or inside the broadcast band, the function raises the ValueError of line
376 exactly on the band `3*window + 1 ≤ 2*N < 4*window` and the IndexError
of line 380 otherwise. -/
theorem filterFbnlCore_error (d : List ℚ) (w wv p : ℕ)
    (h : d.length ≤ w + wv - 1 ∨ (3 * w + 1 ≤ 2 * d.length ∧ d.length < 2 * w)) :
    filterFbnlCore d w wv p
      = Except.error (if 3 * w + 1 ≤ 2 * d.length ∧ d.length < 2 * w
          then "ValueError" else "IndexError") := by
  rw [filterFbnlCore, length_movingMean]
  by_cases hbc : 3 * w + 1 ≤ 2 * d.length ∧ d.length < 2 * w
  · rw [if_neg (fun hg => ((broadcastOk_iff d.length w).mp hg) hbc), if_pos hbc]
  · rw [if_pos ((broadcastOk_iff d.length w).mpr hbc)]
    rcases h with h | h
    · rw [if_pos h, if_neg hbc]
    · exact absurd h hbc

/-! ## C1: behaviour of `filter_fbnl` on signals shorter than
`2*(window+window_var)` -/

/-- C1, counterexample.  The spec claims that for every signal of length
`N < 2*(window+window_var)` the FBNL filter raises an
`InsufficientDataError` and returns no partial result.  The repository
defines no such error class; on the 7-point signal `dC1` with
`window = window_var = 2` — so `N = 7 < 8 = 2*(window+window_var)` — the
filter runs to completion and returns a full `FBNLFilterResult`. -/
theorem C1_counterexample :
    dC1.length < 2 * (2 + 2) ∧
    (filterFbnl false samplerConst sqId dC1 2 2 1).isOk = true := by
  refine ⟨by norm_num [dC1], ?_⟩
  rw [filterFbnl_dC1]
  rfl

/-- C1, amended: `filter_fbnl` performs no minimum-length validation and
cannot raise an `InsufficientDataError` (none exists in the repository).
Uncapped, a signal with `N < 2*(window+window_var)` need not abort at all:
on `N = 7`, `window = window_var = 2` the filter completes with a full
result whose arrays keep the input length.  When the uncapped filter does
abort on a short signal, the error is a plain numpy one: the broadcast
ValueError of line 376 (`xf[window:N-window] = x[:N-2*window]`) on the
band `3*window + 1 ≤ 2*N < 4*window` — which also covers lengths ABOVE
`window+window_var-1` when `window_var < window` — and otherwise, for
`N ≤ window+window_var-1`, the IndexError of the `sf[loss]` assignment
(line 380). -/
theorem C1_theorem :
    ((filterFbnl false samplerConst sqId dC1 2 2 1).toOption.map (fun r =>
       (r.data.length, r.stepMass.length, r.noise.length, r.sf.length)))
      = some (7, 7, 7, 7) ∧
    (∀ (d : List ℚ) (w wv p : ℕ) (sampler : ℚ → ℚ → ℕ → List ℚ) (sq : ℚ → ℚ),
      3 * w + 1 ≤ 2 * d.length → d.length < 2 * w →
      filterFbnl false sampler sq d w wv p = Except.error "ValueError") ∧
    (∀ (d : List ℚ) (w wv p : ℕ) (sampler : ℚ → ℚ → ℕ → List ℚ) (sq : ℚ → ℚ),
      d.length ≤ w + wv - 1 →
      filterFbnl false sampler sq d w wv p
        = Except.error (if 3 * w + 1 ≤ 2 * d.length ∧ d.length < 2 * w
            then "ValueError" else "IndexError")) := by
  refine ⟨?_, ?_, ?_⟩
  · rw [filterFbnl_dC1]
    rfl
  · intro d w wv p sampler sq h1 h2
    have hc : filterFbnlCore d w wv p = Except.error "ValueError" := by
      have h := filterFbnlCore_error d w wv p (Or.inr ⟨h1, h2⟩)
      rwa [if_pos ⟨h1, h2⟩] at h
    rw [filterFbnl, if_neg (by simp : ¬ (false = true)), hc]
    rfl
  · intro d w wv p sampler sq h
    rw [filterFbnl, if_neg (by simp : ¬ (false = true)),
      filterFbnlCore_error d w wv p (Or.inl h)]
    rfl

/-- Witness for the hypothesis-bearing parts of `C1_theorem`: a 2-point
signal with `window = window_var = 2` aborts with the line-380 IndexError,
and a 5-point signal with `window = window_var = 3` (inside the broadcast
band, `10 ≤ 10 < 12`) aborts with the line-376 ValueError. -/
theorem C1_witness :
    (([1, 2] : List ℚ).length ≤ 2 + 2 - 1 ∧
      filterFbnl false samplerConst sqId [1, 2] 2 2 1
        = Except.error "IndexError") ∧
    (3 * 3 + 1 ≤ 2 * ([1, 2, 3, 4, 5] : List ℚ).length ∧
      ([1, 2, 3, 4, 5] : List ℚ).length < 2 * 3 ∧
      filterFbnl false samplerConst sqId [1, 2, 3, 4, 5] 3 3 1
        = Except.error "ValueError") := by
  refine ⟨⟨by norm_num, ?_⟩, by norm_num, by norm_num, ?_⟩
  · rw [C1_theorem.2.2 [1, 2] 2 2 1 samplerConst sqId (by norm_num)]
    norm_num
  · exact C1_theorem.2.1 [1, 2, 3, 4, 5] 3 3 1 samplerConst sqId (by norm_num)
      (by norm_num)

/-! ## C9: pointwise normalisation of the filter weights -/

theorem powN_num (a : ℚ) (p : ℕ) : EF.powN (EF.num a) p = EF.num (a ^ p) := by
  cases p <;> simp [EF.powN]

/-- C9, amended.  The weights are computed as `f = sf**(-p)`,
`b = sb**(-p)` and normalised by `total = f + b`; at every index where both
variances are finite and positive — the filter's valid interior — the
normalised weights satisfy `f + b = 1` exactly.  (At edge indices of an
uncapped result both variances are NaN and `f + b` is NaN, so the claim's
"at every index" fails; see `C9_counterexample`.) -/
theorem C9_theorem (data : List ℚ) (w wv p : ℕ) (i : ℕ) (a c : ℚ)
    (hsf : (sfArr data w wv).getD i EF.nan = EF.num a) (ha : 0 < a)
    (hsb : (sbArr data w wv).getD i EF.nan = EF.num c) (hc : 0 < c) :
    EF.add ((fArr data w wv p).getD i EF.nan) ((bArr data w wv p).getD i EF.nan)
      = EF.num 1 := by
  have hi : i < data.length := by
    by_contra hlt
    push_neg at hlt
    rw [List.getD_eq_default _ _ (by rw [length_sfArr]; omega)] at hsf
    exact absurd hsf (by simp)
  have hapos : (0:ℚ) < a ^ p := pow_pos ha p
  have hcpos : (0:ℚ) < c ^ p := pow_pos hc p
  have hf0 : ((sfArr data w wv).map (fun v => EF.powNeg v p)).getD i EF.nan
      = EF.num ((a ^ p)⁻¹) := by
    rw [getD_map_of_lt _ _ _ EF.nan _ (by rw [length_sfArr]; exact hi), hsf,
      EF.powNeg, powN_num, EF.div]
    rw [if_neg (by positivity)]
    norm_num
  have hb0 : ((sbArr data w wv).map (fun v => EF.powNeg v p)).getD i EF.nan
      = EF.num ((c ^ p)⁻¹) := by
    rw [getD_map_of_lt _ _ _ EF.nan _ (by rw [length_sbArr]; exact hi), hsb,
      EF.powNeg, powN_num, EF.div]
    rw [if_neg (by positivity)]
    norm_num
  have hT : (List.zipWith EF.add
      ((sfArr data w wv).map (fun v => EF.powNeg v p))
      ((sbArr data w wv).map (fun v => EF.powNeg v p))).getD i EF.nan
      = EF.num ((a ^ p)⁻¹ + (c ^ p)⁻¹) := by
    rw [getD_zipWith_of_lt _ _ _ _ EF.nan EF.nan EF.nan
      (by simp [length_sfArr]; exact hi) (by simp [length_sbArr]; exact hi),
      hf0, hb0, EF.add]
  have hTpos : (0:ℚ) < (a ^ p)⁻¹ + (c ^ p)⁻¹ := by positivity
  have hfi : (fArr data w wv p).getD i EF.nan
      = EF.num ((a ^ p)⁻¹ / ((a ^ p)⁻¹ + (c ^ p)⁻¹)) := by
    rw [fArr]
    rw [getD_zipWith_of_lt _ _ _ _ EF.nan EF.nan EF.nan
      (by simp [length_sfArr]; exact hi)
      (by simp [List.length_zipWith, length_sfArr, length_sbArr]; exact hi),
      hf0, hT, EF.div, if_neg (by positivity)]
  have hbi : (bArr data w wv p).getD i EF.nan
      = EF.num ((c ^ p)⁻¹ / ((a ^ p)⁻¹ + (c ^ p)⁻¹)) := by
    rw [bArr]
    rw [getD_zipWith_of_lt _ _ _ _ EF.nan EF.nan EF.nan
      (by simp [length_sbArr]; exact hi)
      (by simp [List.length_zipWith, length_sfArr, length_sbArr]; exact hi),
      hb0, hT, EF.div, if_neg (by positivity)]
  rw [hfi, hbi, EF.add]
  rw [div_add_div_same, div_self (by positivity)]

/-- Witness for `C9_theorem` at the valid interior point `i = 3` of the
signal `dC1`. -/
theorem C9_witness :
    (sfArr dC1 2 2).getD 3 EF.nan = EF.num (1/4) ∧
    (sbArr dC1 2 2).getD 3 EF.nan = EF.num (1/4) ∧ (0:ℚ) < 1/4 ∧
    EF.add ((fArr dC1 2 2 1).getD 3 EF.nan) ((bArr dC1 2 2 1).getD 3 EF.nan)
      = EF.num 1 := by
  have h1 : (sfArr dC1 2 2).getD 3 EF.nan = EF.num (1/4) := by
    rw [show dC1 = ([0, 1, 0, 1, 0, 1, 0] : List ℚ) from rfl, sfArr_dC1]
    rfl
  have h2 : (sbArr dC1 2 2).getD 3 EF.nan = EF.num (1/4) := by
    rw [show dC1 = ([0, 1, 0, 1, 0, 1, 0] : List ℚ) from rfl, sbArr_dC1]
    rfl
  exact ⟨h1, h2, by norm_num,
    C9_theorem dC1 2 2 1 3 (1/4) (1/4) h1 (by norm_num) h2 (by norm_num)⟩

/-- C9, counterexample: in the uncapped `FBNLFilterResult` for `dC1`,
`f + b` at index 0 is NaN, not 1 — the claim's "at every index of the
weight arrays" fails. -/
theorem C9_counterexample :
    ((filterFbnl false samplerConst sqId dC1 2 2 1).toOption.map (fun r =>
       EF.add (r.f.getD 0 (EF.num 0)) (r.b.getD 0 (EF.num 0)))) = some EF.nan ∧
    EF.nan ≠ EF.num 1 := by
  constructor
  · rw [filterFbnl_dC1]
    rfl
  · simp

/-! ## C7: edge capping (`cap_data` / `_filter_fbnl_capped`) -/

theorem trimEnds_append {α : Type} (pre l suf : List α) (k : ℕ)
    (h1 : pre.length = k) (h2 : suf.length = k) :
    trimEnds (pre ++ l ++ suf) k = l := by
  rw [trimEnds, List.append_assoc, ← h1, List.drop_left]
  rw [List.take_left']
  simp [List.length_append, h1, h2]
  omega

/-- Spec-side definition following C7's words: the location parameter the
caps are claimed to be fitted to — the *mean* of the first
`ceil(window/2)` real samples. -/
def capLocClaim (data : List ℚ) (inspect : ℕ) : ℚ := meanQ (data.take inspect)

/-- C7, counterexample.  The cap-fitting statistic is the *median* of the
first `ceil(window/2) + 1` samples (lines 156-157: `data[:inspect+1]`),
not the mean of the first `ceil(window/2)` samples: for `window = 2`
(`inspect = 1`) and data `[0, 10, 0, 0]` the code fits location
`median([0, 10]) = 5`, while the claim prescribes `mean([0]) = 0`. -/
theorem C7_counterexample :
    capLocStart [0, 10, 0, 0] 1 = 5 ∧ capLocClaim [0, 10, 0, 0] 1 = 0 ∧
    capLocStart [0, 10, 0, 0] 1 ≠ capLocClaim [0, 10, 0, 0] 1 := by
  norm_num [capLocStart, capLocClaim, capStartSeg, medianQ, sortQ, sortQ.insertQ,
    meanQ, sumQ]

/-- C7, amended.  With `cap_ends` the filter extends the signal at each end
by `loss = window+window_var-1` samples drawn from a normal distribution
whose location is the *median* (not mean) of the first
`ceil(window/2)+1` (resp. last `ceil(window/2)`) real samples and whose
scale is their population standard deviation; it runs the core filter on
the extended signal and trims `loss` samples from each end of every output
array, so every output array has the original length `N` (and the `data`
field is restored exactly). -/
theorem C7_theorem (sampler : ℚ → ℚ → ℕ → List ℚ) (sq : ℚ → ℚ)
    (hs : ∀ a s n, (sampler a s n).length = n)
    (data : List ℚ) (w wv p : ℕ) (hw : 1 ≤ w) (hwv : 1 ≤ wv) :
    capData sampler sq data (w + wv - 1) ((w + 1) / 2)
      = sampler (medianQ (data.take ((w + 1) / 2 + 1)))
          (sq (popVarQ (data.take ((w + 1) / 2 + 1)))) (w + wv - 1)
        ++ data
        ++ sampler (medianQ (data.drop (data.length - (w + 1) / 2)))
          (sq (popVarQ (data.drop (data.length - (w + 1) / 2)))) (w + wv - 1) ∧
    ((filterFbnlCapped sampler sq data w wv p).toOption.map (fun r =>
       (r.data, r.dataFiltered.length, r.sf.length, r.sb.length, r.f.length,
        r.b.length, r.xf.length, r.xb.length)))
      = some (data, data.length, data.length, data.length, data.length,
          data.length, data.length, data.length) := by
  constructor
  · rfl
  · have hpre : (sampler (capLocStart data ((w + 1) / 2))
        (sq (popVarQ (capStartSeg data ((w + 1) / 2)))) (w + wv - 1)).length
        = w + wv - 1 := hs _ _ _
    have hsuf : (sampler (capLocStop data ((w + 1) / 2))
        (sq (popVarQ (capStopSeg data ((w + 1) / 2)))) (w + wv - 1)).length
        = w + wv - 1 := hs _ _ _
    have hext : (capData sampler sq data (w + wv - 1) ((w + 1) / 2)).length
        = data.length + 2 * (w + wv - 1) := by
      rw [capData]
      simp [List.length_append, hpre, hsuf]
      omega
    have hne : ¬ (capData sampler sq data (w + wv - 1) ((w + 1) / 2)).length
        ≤ w + wv - 1 := by
      rw [hext]; omega
    rw [filterFbnlCapped, filterFbnlCore_ok _ _ _ _ hne (by rw [hext]; omega)]
    have hdata : trimEnds (capData sampler sq data (w + wv - 1) ((w + 1) / 2))
        (w + wv - 1) = data := by
      rw [capData]
      exact trimEnds_append _ _ _ _ hpre hsuf
    simp [Except.map, Except.toOption, Option.map, hdata, length_trimEnds,
      List.length_zipWith, length_fArr, length_bArr, length_xfArr, length_xbArr,
      length_sfArr, length_sbArr, hext]

/-- Witness for `C7_theorem` on a concrete 3-point signal. -/
theorem C7_witness :
    ((filterFbnlCapped samplerConst sqId [1, 2, 3] 1 1 1).toOption.map (fun r =>
       (r.data, r.dataFiltered.length, r.sf.length, r.sb.length, r.f.length,
        r.b.length, r.xf.length, r.xb.length)))
      = some (([1, 2, 3] : List ℚ), 3, 3, 3, 3, 3, 3, 3) :=
  (C7_theorem samplerConst sqId (fun a s n => by simp [samplerConst])
    [1, 2, 3] 1 1 1 (by norm_num) (by norm_num)).2

/-! ## Step locator (`find_steps`) -/

def boolRunsAux : List Bool → ℕ → Option ℕ → List (ℕ × ℕ)
  | [], _, none => []
  | [], pos, some s => [(s, pos)]
  | b :: rest, pos, cur =>
      match b, cur with
      | true, none => boolRunsAux rest (pos + 1) (some pos)
      | true, some s => boolRunsAux rest (pos + 1) (some s)
      | false, none => boolRunsAux rest (pos + 1) none
      | false, some s => (s, pos) :: boolRunsAux rest (pos + 1) none

/-- Maximal contiguous `true` runs of a boolean mask, as `(start, stop)`
index pairs. -/
def boolRuns (mask : List Bool) : List (ℤ × ℤ) :=
  (boolRunsAux mask 0 none).map (fun r => ((r.1 : ℤ), (r.2 : ℤ)))

/-- Merge consecutive runs whose centres are closer than `d` (the
`min_distance_center` pass; `find_steps` always passes `d = 1`, for which
this is the identity on maximal runs). -/
def mergeCenterLT (d : ℕ) : List (ℤ × ℤ) → List (ℤ × ℤ)
  | [] => []
  | r :: rest => go r rest
where
  go : (ℤ × ℤ) → List (ℤ × ℤ) → List (ℤ × ℤ)
  | cur, [] => [cur]
  | cur, s :: rest =>
      if ((s.1 : ℚ) + s.2) / 2 - ((cur.1 : ℚ) + cur.2) / 2 < (d : ℚ) then
        go (cur.1, s.2) rest
      else cur :: go s rest

/-- Merge consecutive runs separated by fewer than `g` low samples (the
`min_length_low` pass). -/
def mergeGapsLT (g : ℕ) : List (ℤ × ℤ) → List (ℤ × ℤ)
  | [] => []
  | r :: rest => go r rest
where
  go : (ℤ × ℤ) → List (ℤ × ℤ) → List (ℤ × ℤ)
  | cur, [] => [cur]
  | cur, s :: rest =>
      if s.1 - cur.2 < (g : ℤ) then go (cur.1, s.2) rest
      else cur :: go s rest

/-- Modelled from the spec: `signal.get_contiguous_segments(mask,
min_length_high, min_distance_center, min_length_low)` (§4.1) — maximal
contiguous True runs, with runs whose centres are closer than
`min_distance_center` merged, runs shorter than `min_length_high` dropped,
and runs separated by fewer than `min_length_low` False samples merged
(`H` before `L`, as the `find_steps` docstring orders the checks).  Every
call in the pipeline uses `min_distance_center = 1` and default
`H = L = 1`, for which all three passes are the identity on the raw
runs. -/
def getContiguousSegments (mask : List Bool) (minLenHigh minDistCenter minLenLow : ℕ) :
    List (ℤ × ℤ) :=
  mergeGapsLT minLenLow
    ((mergeCenterLT minDistCenter (boolRuns mask)).filter
      (fun r => (minLenHigh : ℤ) ≤ r.2 - r.1))

def insertSeg (x : (ℤ × ℤ) × Bool) : List ((ℤ × ℤ) × Bool) → List ((ℤ × ℤ) × Bool)
  | [] => [x]
  | y :: ys => if x.1.1 ≤ y.1.1 then x :: y :: ys else y :: insertSeg x ys

/-- Stable sort of direction-tagged segments by start index
(`argsort` of line 535; starts are distinct in every reachable call, so
stability is immaterial). -/
def sortSegs : List ((ℤ × ℤ) × Bool) → List ((ℤ × ℤ) × Bool)
  | [] => []
  | x :: xs => insertSeg x (sortSegs xs)

/-- Modelled from the spec: the cython `_delete_close_center` merge/split
pass (§4.3 step 3).  Scan segments left to right keeping an open bin;
close it and start a new one when (a) the new segment's direction differs
from the open bin's initial direction and `switch_accept` is false, or (b)
the fused bin would become wider than `max_step_width`, or (c) the new
segment's start is farther than `min_step_spacing` from the centre of the
open bin's last member; otherwise fuse (extend the open bin's stop). -/
def deleteCloseCenter (segs : List ((ℤ × ℤ) × Bool)) (maxW minSpacing : ℕ)
    (switchAccept : Bool) : List ((ℤ × ℤ) × Bool) :=
  match segs with
  | [] => []
  | s :: rest => go s.1 s.2 s.1 rest
where
  go : (ℤ × ℤ) → Bool → (ℤ × ℤ) → List ((ℤ × ℤ) × Bool) → List ((ℤ × ℤ) × Bool)
  | bin, dir, _, [] => [(bin, dir)]
  | bin, dir, last, (s, d) :: rest =>
      if (d ≠ dir ∧ ¬ switchAccept = true) ∨ ((maxW : ℤ) < s.2 - bin.1)
          ∨ ((minSpacing : ℚ) < (s.1 : ℚ) - ((last.1 : ℚ) + (last.2 : ℚ)) / 2) then
        (bin, dir) :: go s d s rest
      else go (bin.1, s.2) dir s rest

/-- The centre-of-mass resolution of one bin (lines 553-563):
`int(np.round(np.average(arange(start, stop), weights=step_mass[start:stop])))`,
then clamped into `[start, stop-1]`.  `np.average` raises a
ZeroDivisionError when the weights sum to zero, and `int(nan)` (possible
when infinite step-mass entries cancel) raises a ValueError. -/
def comCenter (sm : List EF) (s e : ℤ) : Except String ℤ :=
  let idx : List ℤ := listOfFn (e - s).toNat (fun k => s + k)
  let weights := sliceZ sm s e
  let den := EF.sum weights
  if den = EF.num 0 then .error "ZeroDivisionError"
  else
    let av := EF.div (EF.sum (List.zipWith
      (fun (j : ℤ) wj => EF.mul (EF.num (j : ℚ)) wj) idx weights)) den
    match av with
    | EF.num q => .ok (clampZ s (e - 1) (roundHE q))
    | _ => .error "ValueError"

def mapComs (sm : List EF) : List ((ℤ × ℤ) × Bool) → Except String (List ℤ)
  | [] => .ok []
  | b :: rest => do
      let c ← comCenter sm b.1.1 b.1.2
      let cs ← mapComs sm rest
      pure (c :: cs)

/-- Modelled from the spec: `signal.idx_to_idx_segments` — consecutive
pairs of an index list (§4.3 step 5). -/
def idxToIdxSegments (l : List ℤ) : List (ℤ × ℤ) :=
  List.zipWith (fun a b => (a, b)) l l.tail

/-- The tuple returned by `find_steps`. -/
structure FindStepsOut where
  indices : List ℤ
  direction : List Bool
  bounds : List (ℤ × ℤ)
  number : ℕ
  plateaus : List (ℤ × ℤ)
  pCenters : List ℤ
deriving DecidableEq, Repr

/-- `find_steps` (lines 414-579).  `none` parameters model the `None`
defaults (`min_step_spacing = 1`, `max_step_width = min_step_spacing`,
`H = L = 1`). -/
def findSteps (sm : List EF) (yc : EF) (maxW minSpacing H L : Option ℕ)
    (switchAccept : Bool) : Except String FindStepsOut :=
  let smz := sm.map EF.nanZero
  let minSp := minSpacing.getD 1
  let mw := maxW.getD minSp
  let hh := H.getD 1
  let ll := L.getD 1
  let pos := getContiguousSegments (smz.map (fun v => EF.lt yc v)) hh 1 ll
  let neg := getContiguousSegments (smz.map (fun v => EF.lt v (EF.neg yc))) hh 1 ll
  let segs := sortSegs ((pos.map (fun r => (r, true))) ++ (neg.map (fun r => (r, false))))
  let bins := deleteCloseCenter segs mw minSp switchAccept
  do
    let indices ← mapComs smz bins
    let n : ℤ := sm.length
    let pidx := 0 :: indices ++ [n]
    let plats := idxToIdxSegments pidx
    let pcent := plats.map (fun pr =>
      let c := roundHE ((pr.1 : ℚ) + ((pr.2 : ℚ) - (pr.1 : ℚ)) / 2)
      if n - 1 < c then n - 1 else c)
    pure { indices := indices, direction := bins.map (fun b => b.2)
           bounds := bins.map (fun b => b.1), number := indices.length
           plateaus := plats, pCenters := pcent }

/-! ## C2: centre-of-mass resolution of a bin -/

theorem foldl_add_eq (l : List ℚ) (a : ℚ) : List.foldl (· + ·) a l = a + l.sum := by
  induction l generalizing a with
  | nil => simp
  | cons b t ih => simp [List.foldl, ih, add_assoc]

theorem sumQ_eq_sum (l : List ℚ) : sumQ l = l.sum := by
  simp [sumQ, foldl_add_eq]

theorem foldl_add_num (qs : List ℚ) (a : ℚ) :
    List.foldl EF.add (EF.num a) (qs.map EF.num)
      = EF.num (List.foldl (· + ·) a qs) := by
  induction qs generalizing a with
  | nil => rfl
  | cons q t ih => simp [List.foldl, EF.add, ih]

theorem sum_map_num (qs : List ℚ) : EF.sum (qs.map EF.num) = EF.num (sumQ qs) :=
  foldl_add_num qs 0

theorem zipWith_mul_num (idx : List ℤ) (qs : List ℚ) :
    List.zipWith (fun (j : ℤ) wj => EF.mul (EF.num (j : ℚ)) wj) idx (qs.map EF.num)
      = (List.zipWith (fun (j : ℤ) q => (j : ℚ) * q) idx qs).map EF.num := by
  induction idx generalizing qs with
  | nil => rfl
  | cons a l ih =>
      cases qs with
      | nil => rfl
      | cons q t => exact congrArg₂ List.cons rfl (ih t)

theorem zipWith_mul_negZ (idx : List ℤ) (qs : List ℚ) :
    List.zipWith (fun (j : ℤ) q => (j : ℚ) * q) idx (qs.map fun q => -q)
      = (List.zipWith (fun (j : ℤ) q => (j : ℚ) * q) idx qs).map (fun x => -x) := by
  induction idx generalizing qs with
  | nil => rfl
  | cons a l ih =>
      cases qs with
      | nil => rfl
      | cons q t => exact congrArg₂ List.cons (by ring) (ih t)

theorem sumQ_map_neg (l : List ℚ) : sumQ (l.map fun q => -q) = -sumQ l := by
  rw [sumQ_eq_sum, sumQ_eq_sum]
  induction l with
  | nil => simp
  | cons a t ih => simp [List.sum_cons, ih]; ring

/-- Raw (signed) weighted centre of mass of the indices `s..s+len-1` with
the given weights, as `np.average(arange(s, e), weights)` computes it. -/
def comOfWeights (qs : List ℚ) (s : ℤ) : ℚ :=
  sumQ (List.zipWith (fun (j : ℤ) q => (j : ℚ) * q)
    (listOfFn qs.length (fun k => s + (k : ℤ))) qs) / sumQ qs

/-- Spec-side definition following C2's words: the weighted centre of mass
of the indices with weights `|step_mass|`. -/
def absComOfWeights (qs : List ℚ) (s : ℤ) : ℚ :=
  comOfWeights (qs.map (fun q => |q|)) s

/-- C2, amended.  The resolved step index of a bin `(s, e)` is the
weighted centre of mass of the indices `s..e-1` with the *raw, signed*
(NaN-zeroed) step-mass values as weights, rounded half-to-even and clamped
into `[s, e-1]`.  When the bin's weights all carry one sign — every bin
that merged no opposite-direction segment and swallowed no opposite-signed
gap — this coincides with the claim's `|step_mass|`-weighted centre of
mass, proved here; for a mixed-sign bin the two differ
(`C2_counterexample`). -/
theorem C2_theorem (sm : List EF) (qs : List ℚ) (s e : ℤ)
    (hfin : sliceZ sm s e = qs.map EF.num)
    (hlen : (e - s).toNat = qs.length)
    (hsum : sumQ qs ≠ 0)
    (hsign : (∀ q ∈ qs, 0 ≤ q) ∨ (∀ q ∈ qs, q ≤ 0)) :
    comCenter sm s e = Except.ok (clampZ s (e - 1) (roundHE (absComOfWeights qs s))) := by
  rw [comCenter, hfin, sum_map_num, if_neg (by simp [hsum]), zipWith_mul_num,
    sum_map_num, hlen]
  have hdiv : EF.div (EF.num (sumQ (List.zipWith (fun (j : ℤ) q => (j : ℚ) * q)
        (listOfFn qs.length (fun k => (s + k : ℤ))) qs))) (EF.num (sumQ qs))
      = EF.num (sumQ (List.zipWith (fun (j : ℤ) q => (j : ℚ) * q)
        (listOfFn qs.length (fun k => (s + k : ℤ))) qs) / sumQ qs) := by
    simp [EF.div, hsum]
  have key : absComOfWeights qs s
      = sumQ (List.zipWith (fun (j : ℤ) q => (j : ℚ) * q)
        (listOfFn qs.length (fun k => (s + k : ℤ))) qs) / sumQ qs := by
    rw [absComOfWeights, comOfWeights, List.length_map]
    rcases hsign with hpos | hneg
    · have habs : qs.map (fun q => |q|) = qs :=
        (List.map_congr_left (fun q hq => abs_of_nonneg (hpos q hq))).trans
          (List.map_id' qs)
      rw [habs]
    · have habs : qs.map (fun q => |q|) = qs.map (fun q => -q) :=
        List.map_congr_left (fun q hq => abs_of_nonpos (hneg q hq))
      rw [habs, zipWith_mul_negZ, sumQ_map_neg, sumQ_map_neg, neg_div_neg_eq]
  rw [hdiv, key]

/-- Witness for `C2_theorem` on a bin with uniformly positive weights. -/
theorem C2_witness :
    sliceZ [EF.num 2, EF.num 6] 0 2 = ([2, 6] : List ℚ).map EF.num ∧
    comCenter [EF.num 2, EF.num 6] 0 2
      = Except.ok (clampZ 0 1 (roundHE (absComOfWeights [2, 6] 0))) :=
  ⟨rfl, C2_theorem [EF.num 2, EF.num 6] [2, 6] 0 2 rfl rfl
    (by norm_num [sumQ, List.foldl]) (Or.inl (by norm_num))⟩

/-- C2, counterexample.  On `step_mass = [30, -9.9, 10.1]` with
`y_c = 10`, `min_step_spacing = 3` and `switch_accept = True`,
`find_steps` fuses the two positive segments `(0,1)` and `(2,3)` into the
single bin `(0,3)`, whose gap sample carries weight `-9.9`: the code
resolves the step to index 0 (raw signed weights), while the claim's
`|step_mass|` centre of mass rounds and clamps to index 1. -/
theorem C2_counterexample :
    ((findSteps [EF.num 30, EF.num (-99/10), EF.num (101/10)] (EF.num 10)
       none (some 3) none none true).toOption.map
         (fun o => (o.indices, o.bounds)))
      = some ([0], [(0, 3)]) ∧
    clampZ 0 2 (roundHE (absComOfWeights [30, -99/10, 101/10] 0)) = 1 ∧
    (0 : ℤ) ≠ 1 := by
  refine ⟨?_, ?_, by norm_num⟩
  · rw [findSteps]
    norm_num [EF.nanZero, EF.lt, EF.neg, getContiguousSegments, boolRuns,
      boolRunsAux, mergeCenterLT, mergeCenterLT.go, mergeGapsLT, mergeGapsLT.go,
      List.filter, sortSegs, insertSeg, deleteCloseCenter, deleteCloseCenter.go,
      mapComs, comCenter, sliceZ, listOfFn, rangeThree, EF.sum, EF.add, EF.mul,
      EF.div, clampZ, roundHE, idxToIdxSegments, Except.bind, bind, Except.pure,
      pure, Except.toOption, Option.map, List.zipWith, List.foldl]
  · have h1 : absComOfWeights [30, -99/10, 101/10] 0 = 301/500 := by
      have habs : ([30, -99/10, 101/10] : List ℚ).map (fun q => |q|)
          = [30, 99/10, 101/10] := by
        simp only [List.map_cons, List.map_nil]
        norm_num [abs_of_nonneg, abs_of_nonpos]
      rw [absComOfWeights, habs]
      norm_num [comOfWeights, sumQ, listOfFn, rangeThree, List.zipWith, List.foldl]
    rw [h1]
    norm_num [clampZ, roundHE]

/-! ## C10: NaN handling in `find_steps` -/

theorem nanZero_nanZero (x : EF) : EF.nanZero (EF.nanZero x) = EF.nanZero x := by
  cases x <;> rfl

theorem lt_neg_of_le_zero (yc : EF) (h : EF.lt yc (EF.num 0) = false) :
    EF.lt (EF.num 0) (EF.neg yc) = false := by
  cases yc with
  | nan => rfl
  | inf s =>
      cases s with
      | true => rfl
      | false => simp [EF.lt] at h
  | num a =>
      simp [EF.lt, EF.neg] at h ⊢
      linarith

/-- C10 (confirmed).  `find_steps` thresholds a NaN-zeroed private copy of
`step_mass` (lines 516-517), so its result depends on the argument only
through that copy (and in this functional embedding the argument is never
mutated): running it on an already-zeroed copy gives the identical result.
At every NaN entry the copied value is 0, so for any threshold with
`y_c ≥ 0` (`y_c > 0` in the spec) neither the positive mask
`step_mass > y_c` nor the negative mask `step_mass < -y_c` fires there,
and the entry contributes zero weight to every centre of mass. -/
theorem C10_theorem (sm : List EF) (yc : EF) (maxW minSpacing H L : Option ℕ)
    (sw : Bool) (hyc : EF.lt yc (EF.num 0) = false) :
    findSteps (sm.map EF.nanZero) yc maxW minSpacing H L sw
      = findSteps sm yc maxW minSpacing H L sw ∧
    (∀ i, i < sm.length → sm.getD i (EF.num 0) = EF.nan →
      ((sm.map EF.nanZero).getD i (EF.num 0) = EF.num 0 ∧
       EF.lt yc ((sm.map EF.nanZero).getD i (EF.num 0)) = false ∧
       EF.lt ((sm.map EF.nanZero).getD i (EF.num 0)) (EF.neg yc) = false)) := by
  constructor
  · have hm : (sm.map EF.nanZero).map EF.nanZero = sm.map EF.nanZero := by
      rw [List.map_map]
      exact List.map_congr_left (fun x _ => nanZero_nanZero x)
    have hl : (sm.map EF.nanZero).length = sm.length := by simp
    rw [findSteps, findSteps, hm, hl]
  · intro i hi hnan
    have hz : (sm.map EF.nanZero).getD i (EF.num 0) = EF.num 0 := by
      rw [getD_map_of_lt _ _ _ (EF.num 0) _ hi, hnan]
      rfl
    exact ⟨hz, by rw [hz]; exact hyc, by rw [hz]; exact lt_neg_of_le_zero yc hyc⟩

/-- Witness for `C10_theorem` on `step_mass = [NaN, 2]`, `y_c = 1`. -/
theorem C10_witness :
    EF.lt (EF.num 1) (EF.num 0) = false ∧
    findSteps ([EF.nan, EF.num 2].map EF.nanZero) (EF.num 1) none none none none true
      = findSteps [EF.nan, EF.num 2] (EF.num 1) none none none none true ∧
    ([EF.nan, EF.num 2].map EF.nanZero).getD 0 (EF.num 0) = EF.num 0 ∧
    EF.lt (EF.num 1) (([EF.nan, EF.num 2].map EF.nanZero).getD 0 (EF.num 0)) = false ∧
    EF.lt (([EF.nan, EF.num 2].map EF.nanZero).getD 0 (EF.num 0))
      (EF.neg (EF.num 1)) = false := by
  have h := C10_theorem [EF.nan, EF.num 2] (EF.num 1) none none none none true
    (by norm_num [EF.lt])
  exact ⟨by norm_num [EF.lt], h.1,
    h.2 0 (by norm_num) rfl |>.1, (h.2 0 (by norm_num) rfl).2.1,
    (h.2 0 (by norm_num) rfl).2.2⟩

/-! ## Plateau analyser (`analyse_steps`) -/

/-- Modelled from the spec: the cython `_calculate_plateau_heights` —
`plateau_heights[i] = mean(data[plateaus[i,0]:plateaus[i,1]])` (§4.4);
an empty slice yields NaN (the `errstate` of line 641 suppresses the
warning). -/
def plateauHeightsOf (data : List ℚ) (plateaus : List (ℤ × ℤ)) : List EF :=
  plateaus.map (fun pr =>
    let seg := sliceZ data pr.1 pr.2
    if seg.isEmpty then EF.nan else EF.num (meanQ seg))

/-- `analyse_steps` (lines 582-646): dwell points, plateau heights and
step sizes. -/
def analyseSteps (indices : List ℤ) (plateaus : List (ℤ × ℤ)) (data : List ℚ) :
    List EF × List EF × List ℤ :=
  let dwellPoints := List.zipWith (fun a b => b - a) indices indices.tail
  let pHeights := plateauHeightsOf data plateaus
  let stepSizes := List.zipWith EF.sub pHeights.tail pHeights
  (stepSizes, pHeights, dwellPoints)

/-! ## Step pruner (`delete_small_steps`) -/

/-- The `Steps` namedtuple (lines 40-41). -/
structure StepsS where
  indices : List ℤ
  direction : List Bool
  bounds : List (ℤ × ℤ)
  number : ℕ
  plateaus : List (ℤ × ℤ)
  pCenters : List ℤ
  stepSizes : List EF
  plateauHeights : List EF
  dwellPoints : List ℤ
deriving DecidableEq, Repr

/-- The working state of the pruning loop: the `Steps` lists together with
the parallel `minsizes` list and the tracked `num_steps` counter. -/
structure PrunerState where
  indices : List ℤ
  direction : List Bool
  bounds : List (ℤ × ℤ)
  plateaus : List (ℤ × ℤ)
  pCenters : List ℤ
  stepSizes : List EF
  pHeights : List EF
  dwellPoints : List ℤ
  minsizes : List EF
  numSteps : ℕ
deriving DecidableEq, Repr

/-- One removal at cursor `i`: the body of the `if` of lines 748-801. -/
def removeStep (st : PrunerState) (i : ℕ) : PrunerState :=
  let pl := st.plateaus.getD i (0, 0)
  let pr := st.plateaus.getD (i + 1) (0, 0)
  let pStartNew := pl.1
  let pStopNew := pr.2
  let pCenterNew := roundHE ((pStartNew : ℚ) + ((pStopNew : ℚ) - (pStartNew : ℚ)) / 2)
  let hL := st.pHeights.getD i EF.nan
  let hR := st.pHeights.getD (i + 1) EF.nan
  let lenL := pl.2 - pl.1
  let lenR := pr.2 - pr.1
  let pHeightNew := EF.div
    (EF.add (EF.mul hL (EF.num (lenL : ℚ))) (EF.mul hR (EF.num (lenR : ℚ))))
    (EF.num ((lenL + lenR : ℤ) : ℚ))
  let plateaus := (st.plateaus.set (i + 1) (pStartNew, pr.2)).eraseIdx i
  let pCenters := (st.pCenters.set (i + 1) pCenterNew).eraseIdx i
  let pHeights := (st.pHeights.set (i + 1) pHeightNew).eraseIdx i
  let ss1 := if 1 ≤ i then
      st.stepSizes.set (i - 1) (EF.sub pHeightNew (pHeights.getD (i - 1) EF.nan))
    else st.stepSizes
  let ss2 := if i < st.numSteps - 1 then
      ss1.set (i + 1) (EF.sub (pHeights.getD (i + 1) EF.nan) pHeightNew)
    else ss1
  let stepSizes := ss2.eraseIdx i
  let dw1 := if 1 ≤ i ∧ i < st.numSteps - 1 then
      st.dwellPoints.set (i - 1)
        (st.dwellPoints.getD (i - 1) 0 + st.dwellPoints.getD i 0)
    else st.dwellPoints
  let dwellPoints := if i < st.numSteps - 1 then dw1.eraseIdx i
    else if 2 ≤ st.numSteps then dw1.dropLast else dw1
  { indices := st.indices.eraseIdx i
    direction := st.direction.eraseIdx i
    bounds := st.bounds.eraseIdx i
    plateaus := plateaus, pCenters := pCenters
    stepSizes := stepSizes, pHeights := pHeights
    dwellPoints := dwellPoints
    minsizes := st.minsizes.eraseIdx i
    numSteps := st.numSteps - 1 }

/-- The deletion test of line 748: `np.abs(step_sizes[i]) < minsizes[i]`. -/
def pruneGuard (st : PrunerState) (i : ℕ) : Bool :=
  EF.lt (EF.abs (st.stepSizes.getD i EF.nan)) (st.minsizes.getD i EF.nan)

/-- The while-loop of lines 746-809, with explicit fuel.  One iteration
strictly decreases `2*num_steps - i` (a removal sets the cursor to
`max(i-2, -1) + 1 = i - 1` and decrements `num_steps`), so
`2*num_steps + 1` fuel always suffices — see `deleteLoop_noSmall`. -/
def deleteLoop : ℕ → ℕ → PrunerState → PrunerState
  | 0, _, st => st
  | fuel + 1, i, st =>
      if i < st.numSteps then
        if pruneGuard st i then deleteLoop fuel (i - 1) (removeStep st i)
        else deleteLoop fuel (i + 1) st
      else st

/-- `delete_small_steps` at the level of the working state (keeping the
surviving `minsizes`, which the source pops in parallel but does not
return). -/
def deleteSmallStepsFull (steps : StepsS) (minsizes : List EF) : PrunerState :=
  deleteLoop (2 * steps.number + 1) 0
    { indices := steps.indices, direction := steps.direction
      bounds := steps.bounds, plateaus := steps.plateaus
      pCenters := steps.pCenters, stepSizes := steps.stepSizes
      pHeights := steps.plateauHeights, dwellPoints := steps.dwellPoints
      minsizes := minsizes, numSteps := steps.number }

/-- Rebuild the `Steps` namedtuple from the final state
(`number = len(indices)`, line 814). -/
def stepsOfState (st : PrunerState) : StepsS :=
  { indices := st.indices, direction := st.direction, bounds := st.bounds
    number := st.indices.length, plateaus := st.plateaus
    pCenters := st.pCenters, stepSizes := st.stepSizes
    plateauHeights := st.pHeights, dwellPoints := st.dwellPoints }

/-- `delete_small_steps` (lines 706-822). -/
def deleteSmallSteps (steps : StepsS) (minsizes : List EF) : StepsS :=
  stepsOfState (deleteSmallStepsFull steps minsizes)

example : deleteSmallSteps
    { indices := [2, 4], direction := [true, false], bounds := [(1, 3), (3, 5)]
      number := 2, plateaus := [(0, 2), (2, 4), (4, 6)], pCenters := [1, 3, 5]
      stepSizes := [EF.num 10, EF.num (-10)]
      plateauHeights := [EF.num 0, EF.num 10, EF.num 0]
      dwellPoints := [2] }
    [EF.num 1, EF.num 20]
    = { indices := [2], direction := [true], bounds := [(1, 3)], number := 1
        plateaus := [(0, 2), (2, 6)], pCenters := [1, 4]
        stepSizes := [EF.num 5], plateauHeights := [EF.num 0, EF.num 5]
        dwellPoints := [] } := by
  norm_num [deleteSmallSteps, deleteSmallStepsFull, stepsOfState, deleteLoop,
    pruneGuard, removeStep, EF.lt, EF.abs, EF.mul, EF.add, EF.div, EF.sub,
    EF.neg, roundHE, List.set, List.eraseIdx]

/-! ## C3: one pruning removal -/

theorem getD_set_ne {α : Type} (l : List α) (i j : ℕ) (v d : α) (h : i ≠ j) :
    (l.set i v).getD j d = l.getD j d := by
  simp [List.getD_eq_getElem?_getD, List.getElem?_set, h]

theorem getD_eraseIdx_lt {α : Type} (l : List α) (i j : ℕ) (d : α) (h : j < i) :
    (l.eraseIdx i).getD j d = l.getD j d := by
  simp [List.getD_eq_getElem?_getD, List.getElem?_eraseIdx, h]

theorem getD_eraseIdx_ge {α : Type} (l : List α) (i j : ℕ) (d : α) (h : i ≤ j) :
    (l.eraseIdx i).getD j d = l.getD (j + 1) d := by
  simp [List.getD_eq_getElem?_getD, List.getElem?_eraseIdx, Nat.not_lt.mpr h]

/-- The length-weighted average of the two plateau heights adjoining step
`i` — the fused height of lines 756-761. -/
def fusedH (st : PrunerState) (i : ℕ) : EF :=
  let pl := st.plateaus.getD i (0, 0)
  let pr := st.plateaus.getD (i + 1) (0, 0)
  EF.div
    (EF.add (EF.mul (st.pHeights.getD i EF.nan) (EF.num ((pl.2 - pl.1 : ℤ) : ℚ)))
      (EF.mul (st.pHeights.getD (i + 1) EF.nan) (EF.num ((pr.2 - pr.1 : ℤ) : ℚ))))
    (EF.num (((pl.2 - pl.1) + (pr.2 - pr.1) : ℤ) : ℚ))

/-- C3 (confirmed).  At a cursor `i ≥ 1` with `|step_sizes[i]| <
threshold[i]`, the loop performs exactly one removal and resumes at cursor
`i - 1` (= rewind by 2, clamp at -1, advance by 1); the removal fuses
plateaus `i` and `i+1` into one whose bounds are the union and whose
height is the length-weighted average `fusedH`, deletes step `i` from
every parallel array, recomputes `step_sizes[i-1]` against the fused
height and — when a right neighbour exists — `step_sizes[i+1]` against
the (pre-removal) height of plateau `i+2`, and fuses the two adjacent
dwell points into their sum (or drops the trailing one when step `i` was
the last).  (At `i = 0` there is no left dwell point and the code simply
drops `dwell_points[0]`; the claim's description presupposes a left
neighbour.) -/
theorem C3_theorem (fuel i : ℕ) (st : PrunerState)
    (hn : i < st.numSteps) (h1 : 1 ≤ i) (hguard : pruneGuard st i = true) :
    deleteLoop (fuel + 1) i st = deleteLoop fuel (i - 1) (removeStep st i) ∧
    (removeStep st i).numSteps = st.numSteps - 1 ∧
    (removeStep st i).indices = st.indices.eraseIdx i ∧
    (removeStep st i).direction = st.direction.eraseIdx i ∧
    (removeStep st i).bounds = st.bounds.eraseIdx i ∧
    (removeStep st i).minsizes = st.minsizes.eraseIdx i ∧
    (removeStep st i).plateaus
      = (st.plateaus.set (i + 1)
          ((st.plateaus.getD i (0, 0)).1, (st.plateaus.getD (i + 1) (0, 0)).2)).eraseIdx i ∧
    (removeStep st i).pHeights
      = (st.pHeights.set (i + 1) (fusedH st i)).eraseIdx i ∧
    (removeStep st i).stepSizes
      = (if i < st.numSteps - 1 then
          ((st.stepSizes.set (i - 1)
              (EF.sub (fusedH st i) (st.pHeights.getD (i - 1) EF.nan))).set (i + 1)
            (EF.sub (st.pHeights.getD (i + 2) EF.nan) (fusedH st i))).eraseIdx i
        else
          (st.stepSizes.set (i - 1)
            (EF.sub (fusedH st i) (st.pHeights.getD (i - 1) EF.nan))).eraseIdx i) ∧
    (removeStep st i).dwellPoints
      = (if i < st.numSteps - 1 then
          (st.dwellPoints.set (i - 1)
            (st.dwellPoints.getD (i - 1) 0 + st.dwellPoints.getD i 0)).eraseIdx i
        else st.dwellPoints.dropLast) := by
  refine ⟨?_, rfl, rfl, rfl, rfl, rfl, rfl, rfl, ?_, ?_⟩
  · rw [deleteLoop, if_pos hn, if_pos hguard]
  · by_cases hc : i < st.numSteps - 1
    · simp only [removeStep, fusedH, if_pos h1, if_pos hc]
      rw [getD_eraseIdx_lt _ _ _ _ (show i - 1 < i by omega),
        getD_set_ne _ _ _ _ _ (show i + 1 ≠ i - 1 by omega),
        getD_eraseIdx_ge _ _ _ _ (show i ≤ i + 1 by omega),
        getD_set_ne _ _ _ _ _ (show i + 1 ≠ i + 1 + 1 by omega)]
    · simp only [removeStep, fusedH, if_pos h1, if_neg hc]
      rw [getD_eraseIdx_lt _ _ _ _ (show i - 1 < i by omega),
        getD_set_ne _ _ _ _ _ (show i + 1 ≠ i - 1 by omega)]
  · by_cases hc : i < st.numSteps - 1
    · simp only [removeStep, if_pos hc,
        if_pos (show 1 ≤ i ∧ i < st.numSteps - 1 from ⟨h1, hc⟩)]
    · simp only [removeStep, if_neg hc,
        if_neg (show ¬ (1 ≤ i ∧ i < st.numSteps - 1) from by omega),
        if_pos (show 2 ≤ st.numSteps from by omega)]

/-- A concrete 3-step state whose middle step is below threshold. -/
def stC3 : PrunerState :=
  { indices := [2, 4, 6], direction := [true, true, true]
    bounds := [(1, 3), (3, 5), (5, 7)]
    plateaus := [(0, 2), (2, 4), (4, 6), (6, 8)]
    pCenters := [1, 3, 5, 7]
    stepSizes := [EF.num 10, EF.num 1, EF.num 10]
    pHeights := [EF.num 0, EF.num 10, EF.num 11, EF.num 21]
    dwellPoints := [2, 2]
    minsizes := [EF.num 2, EF.num 2, EF.num 2]
    numSteps := 3 }

/-- Witness for `C3_theorem` at the state `stC3`, cursor 1. -/
theorem C3_witness :
    1 < stC3.numSteps ∧ pruneGuard stC3 1 = true ∧
    deleteLoop 1 1 stC3 = deleteLoop 0 0 (removeStep stC3 1) ∧
    (removeStep stC3 1).numSteps = stC3.numSteps - 1 ∧
    (removeStep stC3 1).pHeights
      = (stC3.pHeights.set 2 (fusedH stC3 1)).eraseIdx 1 := by
  have hg : pruneGuard stC3 1 = true := by
    norm_num [pruneGuard, stC3, EF.lt, EF.abs]
  refine ⟨by norm_num [stC3], hg, ?_, ?_, ?_⟩
  · exact (C3_theorem 0 1 stC3 (by norm_num [stC3]) (by norm_num) hg).1
  · exact (C3_theorem 0 1 stC3 (by norm_num [stC3]) (by norm_num) hg).2.1
  · exact (C3_theorem 0 1 stC3 (by norm_num [stC3]) (by norm_num)
      hg).2.2.2.2.2.2.2.1

/-! ## C8: idempotence of the pruner -/

/-- Every surviving step clears its threshold. -/
def noSmall (st : PrunerState) : Prop :=
  ∀ j, j < st.numSteps → pruneGuard st j = false

/-- The length bookkeeping the loop maintains between the guard-relevant
lists and the tracked counter. -/
def wfLen (st : PrunerState) : Prop :=
  st.indices.length = st.numSteps ∧ st.stepSizes.length = st.numSteps ∧
    st.minsizes.length = st.numSteps

theorem removeStep_wf (st : PrunerState) (i : ℕ) (hwf : wfLen st)
    (hi : i < st.numSteps) : wfLen (removeStep st i) := by
  obtain ⟨h1, h2, h3⟩ := hwf
  refine ⟨?_, ?_, ?_⟩
  · show (st.indices.eraseIdx i).length = st.numSteps - 1
    rw [List.length_eraseIdx_of_lt (by omega), h1]
  · simp only [removeStep]
    split_ifs <;>
      rw [List.length_eraseIdx_of_lt (by (try simp only [List.length_set]); omega)] <;>
      simp [List.length_set, h2]
  · show (st.minsizes.eraseIdx i).length = st.numSteps - 1
    rw [List.length_eraseIdx_of_lt (by omega), h3]

theorem deleteLoop_id (fuel i : ℕ) (st : PrunerState) (h : noSmall st) :
    deleteLoop fuel i st = st := by
  induction fuel generalizing i with
  | zero => rfl
  | succ f ih =>
      rw [deleteLoop]
      by_cases hi : i < st.numSteps
      · rw [if_pos hi, if_neg (by simp [h i hi]), ih]
      · rw [if_neg hi]

theorem removeStep_prefixOK (st : PrunerState) (i : ℕ)
    (h : ∀ j, j < i → pruneGuard st j = false) :
    ∀ j, j < i - 1 → pruneGuard (removeStep st i) j = false := by
  intro j hj
  have hs1 : ∀ (l : List EF) (v : EF),
      (l.set (i - 1) v).getD j EF.nan = l.getD j EF.nan :=
    fun l v => getD_set_ne l (i - 1) j v EF.nan (by omega)
  have hs2 : ∀ (l : List EF) (v : EF),
      (l.set (i + 1) v).getD j EF.nan = l.getD j EF.nan :=
    fun l v => getD_set_ne l (i + 1) j v EF.nan (by omega)
  unfold pruneGuard
  simp only [removeStep]
  rw [getD_eraseIdx_lt _ _ _ _ (show j < i by omega),
    getD_eraseIdx_lt _ _ _ _ (show j < i by omega)]
  split_ifs <;> first
    | exact h j (by omega)
    | (simp only [hs1, hs2]; exact h j (by omega))

theorem deleteLoop_noSmall (fuel : ℕ) : ∀ (i : ℕ) (st : PrunerState),
    wfLen st → (∀ j, j < i → pruneGuard st j = false) →
    2 * st.numSteps < fuel + i → noSmall (deleteLoop fuel i st) := by
  induction fuel with
  | zero =>
      intro i st _ hpre hfuel j hj
      have h0 : deleteLoop 0 i st = st := rfl
      rw [h0] at hj ⊢
      exact hpre j (by omega)
  | succ f ih =>
      intro i st hwf hpre hfuel
      by_cases hi : i < st.numSteps
      · by_cases hg : pruneGuard st i = true
        · rw [deleteLoop, if_pos hi, if_pos hg]
          refine ih (i - 1) (removeStep st i) (removeStep_wf st i hwf hi)
            (removeStep_prefixOK st i hpre) ?_
          have hrm : (removeStep st i).numSteps = st.numSteps - 1 := rfl
          omega
        · rw [deleteLoop, if_pos hi, if_neg hg]
          refine ih (i + 1) st hwf ?_ (by omega)
          intro j hj
          rcases Nat.lt_succ_iff_lt_or_eq.mp hj with h' | h'
          · exact hpre j h'
          · subst h'
            exact Bool.eq_false_iff.mpr hg
      · rw [deleteLoop, if_neg hi]
        intro j hj
        exact hpre j (by omega)

theorem deleteLoop_wf (fuel : ℕ) : ∀ (i : ℕ) (st : PrunerState),
    wfLen st → wfLen (deleteLoop fuel i st) := by
  induction fuel with
  | zero => intro i st h; exact h
  | succ f ih =>
      intro i st h
      rw [deleteLoop]
      by_cases hi : i < st.numSteps
      · rw [if_pos hi]
        by_cases hg : pruneGuard st i = true
        · rw [if_pos hg]; exact ih _ _ (removeStep_wf st i h hi)
        · rw [if_neg hg]; exact ih _ _ h
      · rw [if_neg hi]; exact h

theorem deleteSmallStepsFull_state (st : PrunerState)
    (h : st.indices.length = st.numSteps) :
    deleteSmallStepsFull (stepsOfState st) st.minsizes
      = deleteLoop (2 * st.numSteps + 1) 0 st := by
  rw [deleteSmallStepsFull]
  have h1 : (stepsOfState st).number = st.numSteps := h
  rw [h1]
  rfl

/-- C8 (confirmed).  On any length-consistent `Steps` value, the output of
`delete_small_steps` satisfies `|step_sizes[j]| ≥ threshold[j]` at every
surviving step, so running the pruner again — with the threshold values of
the surviving steps (the `minsizes` entries the first run kept) — removes
nothing and returns the identical `Steps` value (and identical working
state). -/
theorem C8_theorem (steps : StepsS) (minsizes : List EF)
    (hidx : steps.indices.length = steps.number)
    (hss : steps.stepSizes.length = steps.number)
    (hms : minsizes.length = steps.number) :
    deleteSmallStepsFull (deleteSmallSteps steps minsizes)
        (deleteSmallStepsFull steps minsizes).minsizes
      = deleteSmallStepsFull steps minsizes ∧
    deleteSmallSteps (deleteSmallSteps steps minsizes)
        (deleteSmallStepsFull steps minsizes).minsizes
      = deleteSmallSteps steps minsizes := by
  have hwf0 : wfLen
      { indices := steps.indices, direction := steps.direction
        bounds := steps.bounds, plateaus := steps.plateaus
        pCenters := steps.pCenters, stepSizes := steps.stepSizes
        pHeights := steps.plateauHeights, dwellPoints := steps.dwellPoints
        minsizes := minsizes, numSteps := steps.number } := ⟨hidx, hss, hms⟩
  have hwf' : wfLen (deleteSmallStepsFull steps minsizes) := by
    rw [deleteSmallStepsFull]
    exact deleteLoop_wf _ _ _ hwf0
  have hns : noSmall (deleteSmallStepsFull steps minsizes) := by
    rw [deleteSmallStepsFull]
    exact deleteLoop_noSmall _ 0 _ hwf0 (fun j hj => absurd hj (Nat.not_lt_zero j))
      (by show 2 * steps.number < 2 * steps.number + 1 + 0; omega)
  have hfirst : deleteSmallStepsFull (deleteSmallSteps steps minsizes)
      (deleteSmallStepsFull steps minsizes).minsizes
      = deleteSmallStepsFull steps minsizes := by
    rw [deleteSmallSteps, deleteSmallStepsFull_state _ hwf'.1]
    exact deleteLoop_id _ _ _ hns
  exact ⟨hfirst, congrArg stepsOfState hfirst⟩

/-- The concrete two-step input used to witness `C8_theorem` (its second
step is below threshold and gets removed by the first run). -/
def stepsC8 : StepsS :=
  { indices := [2, 4], direction := [true, false], bounds := [(1, 3), (3, 5)]
    number := 2, plateaus := [(0, 2), (2, 4), (4, 6)], pCenters := [1, 3, 5]
    stepSizes := [EF.num 10, EF.num (-10)]
    plateauHeights := [EF.num 0, EF.num 10, EF.num 0]
    dwellPoints := [2] }

/-- Witness for `C8_theorem`. -/
theorem C8_witness :
    deleteSmallStepsFull (deleteSmallSteps stepsC8 [EF.num 1, EF.num 20])
        (deleteSmallStepsFull stepsC8 [EF.num 1, EF.num 20]).minsizes
      = deleteSmallStepsFull stepsC8 [EF.num 1, EF.num 20] ∧
    deleteSmallSteps (deleteSmallSteps stepsC8 [EF.num 1, EF.num 20])
        (deleteSmallStepsFull stepsC8 [EF.num 1, EF.num 20]).minsizes
      = deleteSmallSteps stepsC8 [EF.num 1, EF.num 20] :=
  C8_theorem stepsC8 [EF.num 1, EF.num 20] (by norm_num [stepsC8])
    (by norm_num [stepsC8]) (by norm_num [stepsC8])

/-! ## C4: threshold policies of get_min_step_sizes -/

/-- The `step_size_threshold` argument after the `or 'adapt'` default of
line 680: one of the two string policies or a literal float. -/
inductive ThresholdPolicy where
  | adapt : ThresholdPolicy
  | static : ThresholdPolicy
  | fixed : ℚ → ThresholdPolicy
deriving DecidableEq, Repr

/-- `get_min_step_sizes` (lines 649-703).  Returns the threshold array and
echoes the policy back, as the source does. -/
def getMinStepSizes (indices : List ℤ) (yc : ℚ) (fbnlFilter : FBNLFilterResult)
    (stepSizeThreshold : ThresholdPolicy) : List EF × ThresholdPolicy :=
  let number := indices.length
  let sizes := match stepSizeThreshold with
    | .adapt =>
        let window := fbnlFilter.window
        let windowVar := fbnlFilter.windowVar
        let noise := fbnlFilter.noise
        let startMin : ℤ := (window : ℤ) + windowVar - 1
        let stopMax : ℤ := (noise.length : ℤ) - startMin
        indices.map (fun step =>
          let start := max (step - ((window : ℤ) + windowVar)) startMin
          let stop := min (step + ((window : ℤ) + windowVar) * window) stopMax
          EF.mul (EF.num yc) (EF.mean (sliceZ noise start stop)))
    | .static =>
        listOfFn number (fun _ =>
          EF.mul (EF.mul (EF.num 1) (EF.num yc)) fbnlFilter.noiseMean)
    | .fixed t => listOfFn number (fun _ => EF.mul (EF.num 1) (EF.num t))
  (sizes, stepSizeThreshold)

/-- The spec claim's version of the `adapt` policy: the noise window around
a step is the SYMMETRIC range `step ± (window + window_var)`, clipped to the
filter's valid interior. -/
def adaptThresholdClaim (indices : List ℤ) (yc : ℚ)
    (fbnlFilter : FBNLFilterResult) : List EF :=
  let window := fbnlFilter.window
  let windowVar := fbnlFilter.windowVar
  let noise := fbnlFilter.noise
  let startMin : ℤ := (window : ℤ) + windowVar - 1
  let stopMax : ℤ := (noise.length : ℤ) - startMin
  indices.map (fun step =>
    let start := max (step - ((window : ℤ) + windowVar)) startMin
    let stop := min (step + ((window : ℤ) + windowVar)) stopMax
    EF.mul (EF.num yc) (EF.mean (sliceZ noise start stop)))

/-- A concrete filter result for exercising `get_min_step_sizes`:
window 2, window_var 1, noise 0,1,…,11, noise_mean 3. -/
def fbnlC4 : FBNLFilterResult :=
  { data := [], window := 2, windowVar := 1, p := 1
    dataFiltered := [], sf := [], sb := [], f := [], b := [], xf := [], xb := []
    stepMass := [], stepSize := []
    noise := (List.range 12).map (fun (k : ℕ) => EF.num (k : ℚ))
    noiseMean := EF.num 3, aSNR := EF.nan, mSNR := EF.nan, STD := EF.nan
    outls := [] }

/-- C4 (code_bug).  The `static` and literal-float policies behave as the
spec says, but the `adapt` policy's slice is asymmetric: its upper end is
`step + (window + window_var) * window` (line 693), not the claimed
`step + (window + window_var)`.  On noise 0..11 with window 2, window_var 1,
y_c 1 and a step at index 5, the code averages noise[2:10] and yields 11/2
while the spec's symmetric window averages noise[2:8] and yields 9/2. -/
theorem C4_theorem :
    (getMinStepSizes [5] 1 fbnlC4 ThresholdPolicy.adapt).1 = [EF.num (11 / 2)] ∧
    adaptThresholdClaim [5] 1 fbnlC4 = [EF.num (9 / 2)] ∧
    (getMinStepSizes [5] 1 fbnlC4 ThresholdPolicy.adapt).1
      ≠ adaptThresholdClaim [5] 1 fbnlC4 ∧
    (getMinStepSizes [5, 7] 1 fbnlC4 ThresholdPolicy.static).1
      = [EF.num 3, EF.num 3] ∧
    (getMinStepSizes [5, 7] 1 fbnlC4 (ThresholdPolicy.fixed (7 / 2))).1
      = [EF.num (7 / 2), EF.num (7 / 2)] := by
  have hnoise : fbnlC4.noise = [EF.num 0, EF.num 1, EF.num 2, EF.num 3,
      EF.num 4, EF.num 5, EF.num 6, EF.num 7, EF.num 8, EF.num 9, EF.num 10,
      EF.num 11] := by
    show (List.range 12).map (fun (k : ℕ) => EF.num (k : ℚ)) = _
    rw [rangeTwelve]
    norm_num
  have hw : fbnlC4.window = 2 := rfl
  have hwv : fbnlC4.windowVar = 1 := rfl
  have ht2 : Int.toNat 2 = 2 := rfl
  have ht8 : Int.toNat 8 = 8 := rfl
  have ht6 : Int.toNat 6 = 6 := rfl
  have hcode : (getMinStepSizes [5] 1 fbnlC4 ThresholdPolicy.adapt).1
      = [EF.num (11 / 2)] := by
    rw [getMinStepSizes]
    norm_num [hnoise, hw, hwv, ht2, ht8, sliceZ, EF.mean, EF.sum, EF.div,
      EF.mul, EF.add]
  have hclaim : adaptThresholdClaim [5] 1 fbnlC4 = [EF.num (9 / 2)] := by
    rw [adaptThresholdClaim]
    norm_num [hnoise, hw, hwv, ht2, ht6, sliceZ, EF.mean, EF.sum, EF.div,
      EF.mul, EF.add]
  refine ⟨hcode, hclaim, by rw [hcode, hclaim]; norm_num, ?_, ?_⟩
  · rw [getMinStepSizes]
    norm_num [fbnlC4, listOfFn, EF.mul, rangeTwo]
  · rw [getMinStepSizes]
    norm_num [fbnlC4, listOfFn, EF.mul, rangeTwo]

/-! ## C5: the quality scorer -/

/-- The `StepQuality` namedtuple. -/
structure StepQuality where
  stepSd : List EF
  stepNoise : List EF
  stepNoiseOverSd : List EF
deriving DecidableEq, Repr

/-- One iteration of the loop of lines 862-898: the `(step_sd, step_noise)`
pair for the join of plateau `pl` (height `phl`) with plateau `pr`
(height `phr`). -/
def stepQualityAt (sq : ℚ → ℚ) (data : List ℚ) (noise : List EF)
    (window windowVar : ℕ) (pl pr : ℤ × ℤ) (phl phr : EF) : EF × EF :=
  let startMin : ℤ := (window : ℤ) + windowVar - 1
  let stopMax : ℤ := (noise.length : ℤ) - startMin
  let startL := max (max (roundHE ((pl.1 : ℚ) + ((pl.2 : ℚ) - (pl.1 : ℚ)) / 2))
      (pl.1 + window)) startMin
  let stopL := max (pl.2 - window) startL
  let stopR := min (min (roundHE ((pr.2 : ℚ) - ((pr.2 : ℚ) - (pr.1 : ℚ)) / 2))
      (pr.2 - window)) stopMax
  let startR := min (pr.1 + window) stopR
  let dataL := sliceZ data startL stopL
  let dataR := sliceZ data startR stopR
  let totalNumber := stopR - startR + stopL - startL
  let ph := dataL.map (fun q => EF.sub (EF.num q) phl)
      ++ dataR.map (fun q => EF.sub (EF.num q) phr)
  let sd := EF.sqrtE sq (EF.div (EF.sum (ph.map (fun x => EF.mul x x)))
      (EF.num ((totalNumber - 1 : ℤ) : ℚ)))
  let totalNoise := sliceZ noise startL stopL ++ sliceZ noise startR stopR
  let sn := if 0 < totalNoise.length then EF.mean totalNoise else EF.nan
  (sd, sn)

/-- `get_step_qualities` (lines 825-903).  `np.zeros_like(indices)` fixes
both output arrays at length `len(indices)`; a plateau/height zip longer
than that makes the assignment `step_sd[i] = …` raise an IndexError. -/
def getStepQualities (sq : ℚ → ℚ) (steps : StepsS)
    (fbnlFilter : FBNLFilterResult) : Except String StepQuality :=
  let number := steps.indices.length
  let pairs := (steps.plateaus.dropLast.zip steps.plateaus.tail).zip
      (steps.plateauHeights.dropLast.zip steps.plateauHeights.tail)
  if number < pairs.length then Except.error "IndexError"
  else
    let vals := pairs.map (fun pp => stepQualityAt sq fbnlFilter.data
        fbnlFilter.noise fbnlFilter.window fbnlFilter.windowVar
        pp.1.1 pp.1.2 pp.2.1 pp.2.2)
    let stepSd := listOfFn number (fun i => (vals.getD i (EF.num 0, EF.num 0)).1)
    let stepNoise := listOfFn number (fun i => (vals.getD i (EF.num 0, EF.num 0)).2)
    Except.ok { stepSd := stepSd, stepNoise := stepNoise
                stepNoiseOverSd := List.zipWith EF.div stepNoise stepSd }

/-- The per-join formula of the claim, read off the `i`-th and `(i+1)`-st
plateau and height. -/
def stepQualityJoin (sq : ℚ → ℚ) (steps : StepsS) (fbnl : FBNLFilterResult)
    (i : ℕ) : EF × EF :=
  stepQualityAt sq fbnl.data fbnl.noise fbnl.window fbnl.windowVar
    (steps.plateaus.getD i (0, 0)) (steps.plateaus.getD (i + 1) (0, 0))
    (steps.plateauHeights.getD i EF.nan) (steps.plateauHeights.getD (i + 1) EF.nan)

theorem listOfFn_congr {α : Type} (n : ℕ) (f g : ℕ → α)
    (h : ∀ i, i < n → f i = g i) : listOfFn n f = listOfFn n g := by
  simp only [listOfFn]
  exact List.map_congr_left (fun i hi => h i (List.mem_range.mp hi))

theorem zipWith_map_map {α β γ δ : Type} (h : β → γ → δ) (f : α → β)
    (g : α → γ) : ∀ r : List α,
    List.zipWith h (r.map f) (r.map g) = r.map (fun x => h (f x) (g x))
  | [] => rfl
  | x :: xs => by simp only [List.map_cons, List.zipWith_cons_cons,
      zipWith_map_map h f g xs]

theorem zipWith_listOfFn {α β γ : Type} (h : α → β → γ) (n : ℕ) (f : ℕ → α)
    (g : ℕ → β) : List.zipWith h (listOfFn n f) (listOfFn n g)
      = listOfFn n (fun i => h (f i) (g i)) := by
  simp only [listOfFn]
  exact zipWith_map_map h f g (List.range n)

theorem getD_zip_of_lt {α β : Type} (l1 : List α) (l2 : List β) (i : ℕ)
    (d1 : α) (d2 : β) (h1 : i < l1.length) (h2 : i < l2.length) :
    (l1.zip l2).getD i (d1, d2) = (l1.getD i d1, l2.getD i d2) :=
  getD_zipWith_of_lt Prod.mk l1 l2 i d1 d2 (d1, d2) h1 h2

theorem getD_dropLast_of_lt {α : Type} (l : List α) (i : ℕ) (d : α)
    (h : i + 1 < l.length) : l.dropLast.getD i d = l.getD i d := by
  rw [List.getD_eq_getElem _ d (by simp [List.length_dropLast]; omega),
    List.getD_eq_getElem _ d (by omega), List.getElem_dropLast]

theorem getD_tail_of_lt {α : Type} (l : List α) (i : ℕ) (d : α)
    (h : i + 1 < l.length) : l.tail.getD i d = l.getD (i + 1) d := by
  rw [List.getD_eq_getElem _ d (by simp [List.length_tail]; omega),
    List.getD_eq_getElem _ d h, List.getElem_tail]

theorem stepQuality_vals (sq : ℚ → ℚ) (steps : StepsS) (fbnl : FBNLFilterResult)
    (hp : steps.plateaus.length = steps.indices.length + 1)
    (hh : steps.plateauHeights.length = steps.indices.length + 1)
    (i : ℕ) (hi : i < steps.indices.length) :
    (((steps.plateaus.dropLast.zip steps.plateaus.tail).zip
        (steps.plateauHeights.dropLast.zip steps.plateauHeights.tail)).map
        (fun pp => stepQualityAt sq fbnl.data fbnl.noise fbnl.window
          fbnl.windowVar pp.1.1 pp.1.2 pp.2.1 pp.2.2)).getD i
        (EF.num 0, EF.num 0)
      = stepQualityJoin sq steps fbnl i := by
  rw [getD_map_of_lt _ _ i ((((0, 0) : ℤ × ℤ), ((0, 0) : ℤ × ℤ)),
      (EF.nan, EF.nan)) _
      (by simp [List.length_zip, List.length_dropLast, List.length_tail, hp, hh]
          omega)]
  rw [getD_zip_of_lt _ _ i (((0, 0) : ℤ × ℤ), ((0, 0) : ℤ × ℤ)) (EF.nan, EF.nan)
      (by simp [List.length_zip, List.length_dropLast, List.length_tail, hp]; omega)
      (by simp [List.length_zip, List.length_dropLast, List.length_tail, hh]; omega)]
  rw [getD_zip_of_lt _ _ i ((0, 0) : ℤ × ℤ) ((0, 0) : ℤ × ℤ)
      (by simp [List.length_dropLast, hp]; omega)
      (by simp [List.length_tail, hp]; omega)]
  rw [getD_zip_of_lt _ _ i EF.nan EF.nan
      (by simp [List.length_dropLast, hh]; omega)
      (by simp [List.length_tail, hh]; omega)]
  rw [getD_dropLast_of_lt _ _ _ (by omega), getD_tail_of_lt _ _ _ (by omega),
    getD_dropLast_of_lt _ _ _ (by omega), getD_tail_of_lt _ _ _ (by omega)]
  rfl

/-- C5 (corrected).  On plateau/height lists of the usual length
`number + 1`, the quality scorer returns (without raising) arrays of length
`number` — one score per STEP, not per the claimed `number - 1` interior
joins — where entry `i` is given by the per-join formula over plateaus `i`
and `i+1`, and the output ratio is the pointwise IEEE quotient
`step_noise / step_sd` (so a zero `step_sd` under positive noise gives
+∞, not NaN; an empty noise range gives NaN noise). -/
theorem C5_theorem (sq : ℚ → ℚ) (steps : StepsS) (fbnl : FBNLFilterResult)
    (hp : steps.plateaus.length = steps.indices.length + 1)
    (hh : steps.plateauHeights.length = steps.indices.length + 1) :
    getStepQualities sq steps fbnl = Except.ok
      { stepSd := listOfFn steps.indices.length
          (fun i => (stepQualityJoin sq steps fbnl i).1)
        stepNoise := listOfFn steps.indices.length
          (fun i => (stepQualityJoin sq steps fbnl i).2)
        stepNoiseOverSd := listOfFn steps.indices.length
          (fun i => EF.div (stepQualityJoin sq steps fbnl i).2
            (stepQualityJoin sq steps fbnl i).1) } := by
  have hlen : ((steps.plateaus.dropLast.zip steps.plateaus.tail).zip
      (steps.plateauHeights.dropLast.zip steps.plateauHeights.tail)).length
      = steps.indices.length := by
    simp [List.length_zip, List.length_dropLast, List.length_tail, hp, hh]
  simp only [getStepQualities]
  rw [if_neg (by rw [hlen]; omega)]
  rw [zipWith_listOfFn]
  congr 1
  congr 1
  · exact listOfFn_congr _ _ _ (fun i hi =>
      congrArg Prod.fst (stepQuality_vals sq steps fbnl hp hh i hi))
  · exact listOfFn_congr _ _ _ (fun i hi =>
      congrArg Prod.snd (stepQuality_vals sq steps fbnl hp hh i hi))
  · exact listOfFn_congr _ _ _ (fun i hi => by
      rw [stepQuality_vals sq steps fbnl hp hh i hi])

/-- The concrete one-step input used against C5. -/
def stepsC5 : StepsS :=
  { indices := [5], direction := [true], bounds := [(4, 6)], number := 1
    plateaus := [(0, 5), (5, 10)], pCenters := [2, 7]
    stepSizes := [EF.num 1]
    plateauHeights := [EF.num 3, EF.num 3]
    dwellPoints := [5] }

/-- A constant-data filter result with unit noise for the C5 input. -/
def fbnlC5 : FBNLFilterResult :=
  { data := [3, 3, 3, 3, 3, 3, 3, 3, 3, 3], window := 1, windowVar := 1, p := 1
    dataFiltered := [], sf := [], sb := [], f := [], b := [], xf := [], xb := []
    stepMass := [], stepSize := []
    noise := [EF.num 1, EF.num 1, EF.num 1, EF.num 1, EF.num 1, EF.num 1,
      EF.num 1, EF.num 1, EF.num 1, EF.num 1]
    noiseMean := EF.num 1, aSNR := EF.nan, mSNR := EF.nan, STD := EF.nan
    outls := [] }

/-- Counterexample to C5 as stated: a one-step signal yields ONE score
(`number`, not `number - 1 = 0`), and its zero step_sd under unit noise
makes the ratio +∞ rather than the claimed NaN. -/
theorem C5_counterexample :
    getStepQualities sqId stepsC5 fbnlC5 = Except.ok
      { stepSd := [EF.num 0], stepNoise := [EF.num 1]
        stepNoiseOverSd := [EF.inf true] } ∧
    stepsC5.number = 1 ∧ (1 : ℕ) ≠ stepsC5.number - 1 ∧
    EF.inf true ≠ EF.nan := by
  refine ⟨?_, rfl, by norm_num [stepsC5], by simp⟩
  have hq : stepQualityAt sqId fbnlC5.data fbnlC5.noise fbnlC5.window
      fbnlC5.windowVar ((0, 5) : ℤ × ℤ) ((5, 10) : ℤ × ℤ) (EF.num 3) (EF.num 3)
      = (EF.num 0, EF.num 1) := by
    have ht2 : Int.toNat 2 = 2 := rfl
    have ht6 : Int.toNat 6 = 6 := rfl
    rw [stepQualityAt]
    norm_num [fbnlC5, roundHE, sliceZ, EF.sqrtE, sqId, EF.mean, EF.sum, EF.add,
      EF.mul, EF.sub, EF.neg, EF.div, ht2, ht6]
  rw [getStepQualities]
  norm_num [stepsC5, listOfFn, List.range_succ, List.range_zero, hq, EF.div]

/-- Witness for `C5_theorem` at a concrete one-step input. -/
theorem C5_witness :
    getStepQualities sqId stepsC5 fbnlC5 = Except.ok
      { stepSd := listOfFn stepsC5.indices.length
          (fun i => (stepQualityJoin sqId stepsC5 fbnlC5 i).1)
        stepNoise := listOfFn stepsC5.indices.length
          (fun i => (stepQualityJoin sqId stepsC5 fbnlC5 i).2)
        stepNoiseOverSd := listOfFn stepsC5.indices.length
          (fun i => EF.div (stepQualityJoin sqId stepsC5 fbnlC5 i).2
            (stepQualityJoin sqId stepsC5 fbnlC5 i).1) } :=
  C5_theorem sqId stepsC5 fbnlC5 rfl rfl

/-! ## C6: the zero-step branch of find_and_analyse_steps -/

/-- The `StepFinderResult` namedtuple (lines 34-39), without the echoed
`fbnl_filter` handle and with `expected_min_dwell_t` fixed at its `None`
default. -/
structure StepFinderResult where
  expectedMinStepSize : Option ℚ
  yc : EF
  minDwellTime : EF
  switchAccept : Bool
  stepSizeThreshold : ThresholdPolicy
  stepsPre : StepsS
  steps : StepsS
  minSizesPre : List EF
  minSizes : List EF
  qualityPre : StepQuality
  quality : StepQuality
deriving DecidableEq, Repr

/-- `find_and_analyse_steps` (lines 906-1086) at the defaults
`expected_min_dwell_t = None` and `use_mean = False`; `resolution` stands
for the `fbnl_filter.resolution` field (not carried by the embedded filter
record) and `sq` is the square-root payload of the quality scorer.
`y_c = 2/3` without an expected step size, else
`2/3 * expected_min_step_size / noise_mean`; the threshold helpers consume
its rational payload.  In the zero-step branch the source stores
`np.array([0, len(data)])` as the plateau row — one plateau spanning the
signal — and `np.array(np.sum(data))` as its height. -/
def findAndAnalyseSteps (fbnlFilter : FBNLFilterResult) (resolution : ℚ)
    (expectedMinStepSize : Option ℚ) (switchAccept : Bool)
    (stepSizeThreshold : ThresholdPolicy) (sq : ℚ → ℚ) :
    Except String StepFinderResult :=
  let yc : EF := match expectedMinStepSize with
    | none => EF.num (2 / 3)
    | some ems => EF.div (EF.mul (EF.num (2 / 3)) (EF.num ems)) fbnlFilter.noiseMean
  let minStepSpacing := fbnlFilter.window
  let minDwellTime : EF := EF.div (EF.num (minStepSpacing : ℚ)) (EF.num resolution)
  let stepMass := fbnlFilter.stepMass
  do
    let out ← findSteps stepMass yc none (some minStepSpacing) none none switchAccept
    if 0 < out.number then
      let a := analyseSteps out.indices out.plateaus fbnlFilter.data
      let stepsPre : StepsS :=
        { indices := out.indices, direction := out.direction
          bounds := out.bounds, number := out.number
          plateaus := out.plateaus, pCenters := out.pCenters
          stepSizes := a.1, plateauHeights := a.2.1, dwellPoints := a.2.2 }
      let msp := getMinStepSizes out.indices (EF.toQ yc) fbnlFilter
        stepSizeThreshold
      let qpre ← getStepQualities sq stepsPre fbnlFilter
      let steps := deleteSmallSteps stepsPre msp.1
      let ms := getMinStepSizes steps.indices (EF.toQ yc) fbnlFilter msp.2
      let q ← getStepQualities sq steps fbnlFilter
      pure { expectedMinStepSize := expectedMinStepSize, yc := yc
             minDwellTime := minDwellTime, switchAccept := switchAccept
             stepSizeThreshold := ms.2, stepsPre := stepsPre, steps := steps
             minSizesPre := msp.1, minSizes := ms.1
             qualityPre := qpre, quality := q }
    else
      let plateaus : List (ℤ × ℤ) := [(0, (fbnlFilter.data.length : ℤ))]
      let plateauHeights : List EF := [EF.num (sumQ fbnlFilter.data)]
      let steps : StepsS :=
        { indices := [], direction := [], bounds := []
          number := 0, plateaus := plateaus, pCenters := out.pCenters
          stepSizes := [], plateauHeights := plateauHeights
          dwellPoints := [] }
      pure { expectedMinStepSize := expectedMinStepSize, yc := yc
             minDwellTime := minDwellTime, switchAccept := switchAccept
             stepSizeThreshold := stepSizeThreshold, stepsPre := steps
             steps := steps, minSizesPre := [], minSizes := []
             qualityPre := ⟨[], [], []⟩, quality := ⟨[], [], []⟩ }

/-- A flat two-sample signal whose step mass never crosses the threshold:
the locator finds zero steps. -/
def fbnlC6 : FBNLFilterResult :=
  { data := [2, 2], window := 1, windowVar := 1, p := 1
    dataFiltered := [], sf := [], sb := [], f := [], b := [], xf := [], xb := []
    stepMass := [EF.num 0, EF.num 0], stepSize := []
    noise := [EF.num 1, EF.num 1]
    noiseMean := EF.num 1, aSNR := EF.nan, mSNR := EF.nan, STD := EF.nan
    outls := [] }

/-- C6 (code_bug).  On the flat signal `[2, 2]` the pipeline does not raise
and returns `number = 0` with the single whole-signal plateau `(0, 2)` —
but the stored plateau height is `np.sum(data) = 4` (line 1075), not the
Plateau Analyzer's mean `2` that the claim requires. -/
theorem C6_theorem :
    (findAndAnalyseSteps fbnlC6 1 none true ThresholdPolicy.adapt sqId).map
        (fun r => (r.steps.number, r.steps.plateaus, r.steps.plateauHeights))
      = Except.ok (0, [((0 : ℤ), (2 : ℤ))], [EF.num 4]) ∧
    plateauHeightsOf fbnlC6.data [((0 : ℤ), (2 : ℤ))] = [EF.num 2] ∧
    EF.num (4 : ℚ) ≠ EF.num (2 : ℚ) := by
  refine ⟨?_, ?_, by simp⟩
  · rw [findAndAnalyseSteps, findSteps]
    norm_num [fbnlC6, EF.nanZero, EF.lt, EF.neg, getContiguousSegments,
      boolRuns, boolRunsAux, mergeCenterLT, mergeCenterLT.go, mergeGapsLT,
      mergeGapsLT.go, List.filter, sortSegs, insertSeg, deleteCloseCenter,
      deleteCloseCenter.go, mapComs, idxToIdxSegments, roundHE, Except.bind,
      bind, Except.pure, pure, Except.map, sumQ, List.foldl, List.zipWith]
  · have ht2 : Int.toNat 2 = 2 := rfl
    norm_num [plateauHeightsOf, fbnlC6, sliceZ, meanQ, sumQ, List.foldl, ht2]
